import Mathlib

/-!
# Verification of `hono-cli-adapter`

A shallow embedding, in Lean 4, of the transformation pipeline of the
`hono-cli-adapter` repository: the library converts parsed command-line
arguments into an HTTP `Request`, dispatches it against an in-process
handler, and formats the resulting `Response` into output lines.

The repository contains two near-duplicate adapter variants:

* the GET variant (`src/index.ts`): `buildUrlFromArgv`, `parseEnvFlags`,
  `buildRequestFromArgv` (method GET), `adaptAndFetch`, `runCliDefault`;
* the POST variant: additionally `parseBodyTokens`, `commandFromArgv`,
  `resolveBeforeFetch`, a JSON body built from the tokens after the `--`
  separator, and `listRoutesWithExamplesFromOpenApi`.

Functions whose text is identical in the two variants are embedded once at
top level; variant-specific functions live in the `GetAdapter` and
`PostAdapter` namespaces.

External capabilities are embedded as follows:

* minimist (the argv tokenizer) is kept opaque: theorems quantify over an
  arbitrary parse function producing the structured `Argv` value;
* JavaScript plain objects are embedded as association lists built with
  JavaScript's key-update semantics (setting an existing key updates the
  value in place, a new key is appended);
* the WHATWG `URL` class is embedded to the fidelity the claims need: the
  `pathname` setter parses the assigned string in *path start state* with
  the special-scheme rules (splitting on `/` and `\`, removing single-dot
  and double-dot segments, percent-encoding with the path percent-encode
  set), and the getter serializes the segment list back;
* `URLSearchParams` is embedded as an ordered list of name/value pairs
  with the `set`/`append` operations of the standard;
* `encodeURIComponent` is embedded per ECMA-262: unreserved characters
  (`A-Z a-z 0-9 - _ . ! ~ * ' ( )`) are kept, every other character is
  UTF-8 encoded and each byte written as `%XX` with uppercase hex;
* `JSON.parse` / `JSON.stringify(v, null, 2)` are embedded over a JSON
  value type; numbers are kept as their source text (exact for the
  integer literals the claims exercise).
-/

set_option autoImplicit false

/-! ## JavaScript primitive values

`JsTok` models the scalar values minimist can place into `argv._` or into
a repeated-flag array; `JsTok.toStr` is JavaScript's `String(v)`
conversion (numbers are restricted to integers, printed in decimal, which
is exact JavaScript behavior for the safe-integer range). -/

inductive JsTok where
  | str (s : String)
  | num (n : Int)
  | boolv (b : Bool)
  | nullv
  | undefv
  deriving DecidableEq, Repr

def JsTok.toStr : JsTok → String
  | .str s => s
  | .num n => n.repr
  | .boolv true => "true"
  | .boolv false => "false"
  | .nullv => "null"
  | .undefv => "undefined"

/-- `s !== undefined && s !== null`, the filter applied to `argv._`. -/
def JsTok.isRealValue : JsTok → Bool
  | .nullv => false
  | .undefv => false
  | _ => true

/-- A flag value in the minimist result object: string, number, boolean,
array (from a repeated flag), or a nullish value. -/
inductive FlagVal where
  | str (s : String)
  | num (n : Int)
  | boolv (b : Bool)
  | arr (xs : List JsTok)
  | nullv
  | undefv
  deriving DecidableEq, Repr

/-- The value of a string-typed flag such as `--env`: absent, a single
string, or an array of strings (repeated flag). -/
inductive StrOrList where
  | undef
  | one (s : String)
  | listv (l : List String)
  deriving DecidableEq, Repr

/-- `([] as string[]).concat(v || [])`. -/
def StrOrList.concatList : StrOrList → List String
  | .undef => []
  | .one s => [s]
  | .listv l => l

/-! ## JavaScript plain objects with string values

A JavaScript object is embedded as an association list in key insertion
order. `objSet` is property assignment: an existing key keeps its
position and gets the new value, a fresh key is appended. Objects built
from `[]` by `objSet` therefore have unique keys, like real JS objects. -/

abbrev JsObj := List (String × String)

def objSet : JsObj → String → String → JsObj
  | [], k, v => [(k, v)]
  | (k', v') :: o, k, v =>
    if k' = k then (k, v) :: o else (k', v') :: objSet o k v

/-- `Object.assign(o, ...ps)` / object-spread of the entry list `ps` over
`o`: each entry is assigned in order, later entries winning. -/
def objAssign (o : JsObj) (ps : JsObj) : JsObj :=
  ps.foldl (fun acc p => objSet acc p.1 p.2) o

/-- `Object.fromEntries(ps)`. -/
def objFromEntries (ps : JsObj) : JsObj :=
  objAssign [] ps

/-- Property lookup `o[k]` (first matching key; keys of real objects are
unique). -/
def jsGet (o : JsObj) (k : String) : Option String :=
  (o.find? (fun p => p.1 = k)).map (·.2)

/-- The value contributed for key `k` by the *last* entry of `ps` whose
key is `k` (the value that survives repeated assignment). -/
def lastGet : JsObj → String → Option String
  | [], _ => none
  | (k', v') :: ps, k =>
    match lastGet ps k with
    | some v => some v
    | none => if k' = k then some v' else none

theorem jsGet_cons (a b : String) (o : JsObj) (k : String) :
    jsGet ((a, b) :: o) k = if a = k then some b else jsGet o k := by
  by_cases h : a = k <;> simp [jsGet, List.find?_cons, h]

theorem jsGet_objSet (o : JsObj) (k v k' : String) :
    jsGet (objSet o k v) k' = if k = k' then some v else jsGet o k' := by
  induction o with
  | nil =>
    show jsGet [(k, v)] k' = _
    rw [jsGet_cons]
  | cons p o ih =>
    obtain ⟨pk, pv⟩ := p
    by_cases hpk : pk = k
    · subst hpk
      simp only [objSet, if_pos rfl, jsGet_cons]
      by_cases h : pk = k' <;> simp [jsGet_cons, h]
    · simp only [objSet, if_neg hpk, jsGet_cons, ih]
      by_cases h : pk = k'
      · subst h
        have : ¬ (k = pk) := fun hh => hpk hh.symm
        simp [this]
      · simp [h]

theorem jsGet_objAssign (o : JsObj) (ps : JsObj) (k : String) :
    jsGet (objAssign o ps) k =
      match lastGet ps k with
      | some v => some v
      | none => jsGet o k := by
  induction ps generalizing o with
  | nil => simp [objAssign, lastGet]
  | cons p ps ih =>
    obtain ⟨pk, pv⟩ := p
    show jsGet (objAssign (objSet o pk pv) ps) k = _
    rw [ih]
    cases hl : lastGet ps k with
    | some v => simp [lastGet, hl]
    | none =>
      simp only [lastGet, hl, jsGet_objSet]
      by_cases h : pk = k <;> simp [h]

theorem jsGet_objFromEntries (ps : JsObj) (k : String) :
    jsGet (objFromEntries ps) k = lastGet ps k := by
  rw [objFromEntries, jsGet_objAssign]
  cases lastGet ps k <;> simp [jsGet, List.find?]

/-! ## `KEY=VALUE` token splitting

Both `parseEnvFlags` and `parseBodyTokens` split a token on its first `=`
(`s.indexOf('=')`): a token without `=` maps to the pair
`(token, "")`. -/

/-- Split a character list at the first occurrence of `=`; `none` when
there is no `=`. -/
def splitFirstEq : List Char → Option (List Char × List Char)
  | [] => none
  | c :: cs =>
    if c = '=' then some ([], cs)
    else (splitFirstEq cs).map (fun p => (c :: p.1, p.2))

/-- The `s => { const i = s.indexOf('='); return i === -1 ? [s, ''] :
[s.slice(0, i), s.slice(i + 1)] }` lambda shared by `parseEnvFlags` and
`parseBodyTokens`. -/
def splitEqToken (s : String) : String × String :=
  match splitFirstEq s.data with
  | none => (s, "")
  | some (a, b) => (String.mk a, String.mk b)

/-- `parseEnvFlags` (identical in both variants): parse `--env KEY=VALUE`
flags into an object. -/
def parseEnvFlags (envFlags : StrOrList) : JsObj :=
  objFromEntries (envFlags.concatList.map splitEqToken)

/-- `parseBodyTokens` (POST variant): parse `key=value` tokens collected
after the `--` separator into an object. -/
def parseBodyTokens (tokens : StrOrList) : JsObj :=
  objFromEntries (tokens.concatList.map splitEqToken)

theorem splitFirstEq_of_not_mem (l : List Char) (h : ¬ '=' ∈ l) :
    splitFirstEq l = none := by
  induction l with
  | nil => rfl
  | cons c cs ih =>
    have hc : ¬ c = '=' := fun hc => h (hc ▸ List.mem_cons_self c cs)
    have hcs : ¬ '=' ∈ cs := fun hm => h (List.mem_cons_of_mem c hm)
    simp [splitFirstEq, hc, ih hcs]

theorem splitEqToken_of_no_eq (s : String) (h : ¬ '=' ∈ s.data) :
    splitEqToken s = (s, "") := by
  simp [splitEqToken, splitFirstEq_of_not_mem s.data h]

/-! ## `encodeURIComponent`

ECMA-262: characters in the unreserved set
`A-Z a-z 0-9 - _ . ! ~ * ' ( )` are copied, every other character is
UTF-8 encoded and each byte written as `%XX` with uppercase hex digits.
Character classes are expressed on code points (`Char.toNat`) to keep the
arithmetic `omega`-friendly. -/

/-- The `encodeURIComponent` unreserved set, by code point. -/
def isUnreservedCode (n : Nat) : Bool :=
  (65 ≤ n && n ≤ 90) || (97 ≤ n && n ≤ 122) || (48 ≤ n && n ≤ 57) ||
  n == 45 || n == 95 || n == 46 || n == 33 || n == 126 ||
  n == 42 || n == 39 || n == 40 || n == 41

/-- UTF-8 encoding of a Unicode code point, as byte values. -/
def utf8Bytes (n : Nat) : List Nat :=
  if n < 128 then [n]
  else if n < 2048 then [192 + n / 64, 128 + n % 64]
  else if n < 65536 then [224 + n / 4096, 128 + (n / 64) % 64, 128 + n % 64]
  else [240 + n / 262144, 128 + (n / 4096) % 64, 128 + (n / 64) % 64, 128 + n % 64]

/-- Uppercase hex digit for a value below 16. -/
def hexDigitChar (d : Nat) : Char :=
  Char.ofNat (if d < 10 then 48 + d else 55 + d)

/-- `%XX` encoding of one byte (37 is the code of the percent sign). -/
def pctEncodeByte (b : Nat) : List Char :=
  [Char.ofNat 37, hexDigitChar (b / 16), hexDigitChar (b % 16)]

def encodeURIChar (c : Char) : List Char :=
  if isUnreservedCode c.toNat then [c]
  else ((utf8Bytes c.toNat).map pctEncodeByte).flatten

def encodeURIComponentL (l : List Char) : List Char :=
  (l.map encodeURIChar).flatten

def encodeURIComponent (s : String) : String :=
  String.mk (encodeURIComponentL s.data)

/-! ## The WHATWG URL path model

The source assigns `url.pathname = pathname` on a `URL` with the special
scheme `http`. Per the WHATWG URL standard, the pathname setter empties
the URL's path and runs the basic URL parser on the assigned string in
*path start* state: `/` and `\` separate segments (one leading separator
is consumed), a single-dot segment (`.` or a case-insensitive `%2e`) is
dropped, a double-dot segment (`..`, `.%2e`, `%2e.`, `%2e%2e`,
case-insensitive) also pops the previous segment (dot segments at the end
of the input leave an empty final segment), and every other segment is
percent-encoded with the path percent-encode set (C0 controls, space,
`"`, `#`, `<`, `>`, `?`, backtick, the two curly braces, and everything
above `~`). The getter serializes the segment list, each segment prefixed
by `/`. -/

def isPathSep (c : Char) : Bool :=
  c == '/' || c == '\\'

/-- The path percent-encode set, by code point (32 space, 34 `"`, 35 `#`,
60 `<`, 62 `>`, 63 `?`, 96 backtick, 123 and 125 the braces). -/
def inPathEncodeSet (c : Char) : Bool :=
  let n := c.toNat
  n < 32 || 126 < n || n == 32 || n == 34 || n == 35 || n == 60 ||
  n == 62 || n == 63 || n == 96 || n == 123 || n == 125

/-- ASCII lowercasing, used for the case-insensitive dot-segment match. -/
def lowerChar (c : Char) : Char :=
  if 65 ≤ c.toNat && c.toNat ≤ 90 then Char.ofNat (c.toNat + 32) else c

def isSingleDotSeg (l : List Char) : Bool :=
  l == ['.'] || l.map lowerChar == ['%', '2', 'e']

def isDoubleDotSeg (l : List Char) : Bool :=
  l == ['.', '.'] || l.map lowerChar == ['.', '%', '2', 'e'] ||
  l.map lowerChar == ['%', '2', 'e', '.'] ||
  l.map lowerChar == ['%', '2', 'e', '%', '2', 'e']

/-- Split on `/` and `\` (both are segment separators for the special
scheme `http`); always returns at least one (possibly empty) segment. -/
def splitPathSeps : List Char → List (List Char)
  | [] => [[]]
  | c :: cs =>
    if isPathSep c then [] :: splitPathSeps cs
    else
      match splitPathSeps cs with
      | [] => [[c]]
      | s :: ss => (c :: s) :: ss

/-- *Path start* state consumes one leading separator. -/
def stripOneLeadingSep : List Char → List Char
  | [] => []
  | c :: cs => if isPathSep c then cs else c :: cs

def encodePathChar (c : Char) : List Char :=
  if inPathEncodeSet c then ((utf8Bytes c.toNat).map pctEncodeByte).flatten
  else [c]

def encodePathSeg (l : List Char) : List Char :=
  (l.map encodePathChar).flatten

/-- *Path* state over the raw segment list: dot-segment handling plus
percent-encoding. The `rest.isEmpty` tests correspond to the boundary
character being the end of input rather than a separator. -/
def procPathSegs : List (List Char) → List (List Char) → List (List Char)
  | acc, [] => acc
  | acc, b :: rest =>
    if isDoubleDotSeg b then
      procPathSegs (if rest.isEmpty then acc.dropLast ++ [[]] else acc.dropLast) rest
    else if isSingleDotSeg b then
      procPathSegs (if rest.isEmpty then acc ++ [[]] else acc) rest
    else
      procPathSegs (acc ++ [encodePathSeg b]) rest

/-- The `url.pathname = s` setter: the URL's new path segment list. -/
def setPathname (l : List Char) : List (List Char) :=
  procPathSegs [] (splitPathSeps (stripOneLeadingSep l))

/-! ## `URL` and `URLSearchParams` values

A `URL` created as `new URL('http://cli')` and mutated only through the
`pathname` and `search` setters is determined by its path segment list
and its query pair list, which is what the embedding keeps.
`URLSearchParams.set` updates the first pair with the given name and
removes the others; `append` adds a pair at the end.  Serializing the
pairs with `toString` and assigning the result to `url.search`
round-trips the pair list (the serializer escapes `=` and `&`), so the
built URL's query is embedded as the pair list itself; `qs.toString()`
is empty exactly when the pair list is empty, so the guarded `url.search
= q` assignment leaves the query equal to the pair list in both cases. -/

abbrev SearchParams := List (String × String)

def uspSet : SearchParams → String → String → SearchParams
  | [], k, v => [(k, v)]
  | (k', v') :: l, k, v =>
    if k' = k then (k, v) :: l.filter (fun p => ¬ p.1 = k)
    else (k', v') :: uspSet l k v

def uspAppend (l : SearchParams) (k v : String) : SearchParams :=
  l ++ [(k, v)]

structure UrlM where
  pathSegs : List (List Char)
  query : SearchParams
  deriving DecidableEq, Repr

/-- The `url.pathname` getter: each segment prefixed by `/`. -/
def UrlM.pathname (u : UrlM) : String :=
  String.mk ((u.pathSegs.map (fun s => '/' :: s)).flatten)

/-! ## JSON string escaping and the flat-object serializer

`JSON.stringify` on a string: quote, backslash and the short control
escapes, `\u00xx` (lowercase hex) for the remaining control characters,
everything else copied. `jsonStringifyFlat` is `JSON.stringify(bodyObj)`
for the flat string-valued object the POST body builder produces (no gap,
so no whitespace). -/

def lowerHexDigit (d : Nat) : Char :=
  Char.ofNat (if d < 10 then 48 + d else 87 + d)

def jsonEscapeChar (c : Char) : List Char :=
  if c = '"' then ['\\', '"']
  else if c = '\\' then ['\\', '\\']
  else if c.toNat = 8 then ['\\', 'b']
  else if c.toNat = 9 then ['\\', 't']
  else if c.toNat = 10 then ['\\', 'n']
  else if c.toNat = 12 then ['\\', 'f']
  else if c.toNat = 13 then ['\\', 'r']
  else if c.toNat < 32 then
    ['\\', 'u', '0', '0', lowerHexDigit (c.toNat / 16), lowerHexDigit (c.toNat % 16)]
  else [c]

def jsonQuote (s : String) : String :=
  String.mk ('"' :: (s.data.map jsonEscapeChar).flatten ++ ['"'])

def jsonStringifyFlat (o : JsObj) : String :=
  String.mk (Char.ofNat 123 ::
    List.intercalate [',']
      (o.map (fun p => (jsonQuote p.1).data ++ ':' :: (jsonQuote p.2).data)) ++
    [Char.ofNat 125])

/-! ## Parsed argv

The minimist result object.  The string-typed flags `base` and `env` and
the boolean flags `json`/`list`/`help` of the CLI parse are carried as
dedicated fields; all remaining flag keys are in `flags` in insertion
order.  (In the real object `base`/`env` are also enumerable keys, but
both are in the default reserved set, so the query-string loop always
skips them; the `json`/`list`/`help` booleans exist only in the
`runCliDefault` parse, whose object is never given to the URL builder.)
`underscore` is `argv._` and `ddash` is `argv['--']` (always an array,
since both variants parse with `'--': true`). -/

structure Argv where
  underscore : List JsTok := []
  flags : List (String × FlagVal) := []
  ddash : List String := []
  json : Bool := false
  list : Bool := false
  help : Bool := false
  base : Option String := none
  env : StrOrList := .undef
  deriving DecidableEq, Repr

/-- `Object.entries(argv)` as seen by the query-string loop: `argv._`
first (minimist creates it first), then the other flags, then the `--`
key. -/
def Argv.entries (argv : Argv) : List (String × FlagVal) :=
  ("_", .arr argv.underscore) :: argv.flags ++ [("--", .arr (argv.ddash.map .str))]

/-! ## Requests, responses, apps, and hooks -/

structure RequestM where
  url : UrlM
  method : String
  body : Option String := none
  headers : List (String × String) := []
  deriving DecidableEq, Repr

structure ResponseM where
  status : Nat := 200
  bodyText : String := ""
  deriving DecidableEq, Repr

/-- `res.ok`: status in the 2xx range. -/
def ResponseM.ok (r : ResponseM) : Bool :=
  200 ≤ r.status && r.status < 300

structure RouteEntry where
  method : String
  path : String
  deriving DecidableEq, Repr

/-- A Hono app as the adapter sees it: a best-effort route snapshot and
the `fetch(request, env)` capability (collapsed to a pure function; the
adapter performs exactly one dispatch and only awaits it). -/
structure AppM where
  routes : List RouteEntry := []
  fetch : RequestM → JsObj → ResponseM

/-- What a `beforeFetch` hook returns, as the `maybe instanceof Request`
test sees it: a `Request` instance, or any other value (including
`undefined` from a `void` return). -/
inductive HookRet where
  | request (r : RequestM)
  | nonRequest

/-- `BeforeFetchFn`: receives the built request and the parsed argv. -/
def BeforeFetchFn : Type := RequestM → Argv → HookRet

/-- `AdapterOptions['beforeFetch']`: a single function or a table keyed
by command name. -/
inductive BeforeCfg where
  | fnc (f : BeforeFetchFn)
  | table (t : List (String × BeforeFetchFn))

/-- `AdapterOptions` (the POST variant's shape; the GET variant's options
are the same minus `beforeFetch`, and the GET functions never read that
field).  `env` values are modeled as strings. -/
structure AdapterOptions where
  base : Option String := none
  env : JsObj := []
  reservedKeys : List String := []
  beforeFetch : Option BeforeCfg := none

def DEFAULT_RESERVED : List String := ["_", "--", "base", "env"]

/-! ## `buildUrlFromArgv` (identical in both variants) -/

/-- `p.replace(/^\/+|\/+$/g, '')`: strip leading and trailing slashes. -/
def trimSlashesL (l : List Char) : List Char :=
  ((l.dropWhile (· == '/')).reverse.dropWhile (· == '/')).reverse

/-- `Array.prototype.join('/')`. -/
def joinWithSlash : List (List Char) → List Char
  | [] => []
  | [p] => p
  | p :: ps => p ++ '/' :: joinWithSlash ps

/-- The `join` helper of `buildUrlFromArgv`: trim each part, drop empty
parts, join with single slashes. -/
def joinSlashL (parts : List (List Char)) : List Char :=
  joinWithSlash ((parts.map trimSlashesL).filter (fun p => ¬ p.isEmpty))

/-- One iteration of the query-string loop of `buildUrlFromArgv`: skip
reserved keys; append one entry per element for arrays, set a single
entry for booleans (`"true"`/`"false"`) and for non-nullish scalars
(their string form); skip nullish values. -/
def queryStep (reserved : List String) (qs : SearchParams)
    (kv : String × FlagVal) : SearchParams :=
  if reserved.contains kv.1 then qs
  else
    match kv.2 with
    | .arr xs => xs.foldl (fun qs vv => uspAppend qs kv.1 vv.toStr) qs
    | .boolv b => uspSet qs kv.1 (if b then "true" else "false")
    | .str s => uspSet qs kv.1 s
    | .num n => uspSet qs kv.1 n.repr
    | .nullv => qs
    | .undefv => qs

def buildUrlFromArgv (argv : Argv) (options : AdapterOptions) : UrlM :=
  let base := options.base.getD ""
  let segs := (argv.underscore.filter JsTok.isRealValue).map
    (fun s => encodeURIComponentL s.toStr.data)
  let pathname : List Char := '/' :: joinSlashL (base.data :: segs)
  let reserved := options.reservedKeys ++ DEFAULT_RESERVED
  let qs := argv.entries.foldl (queryStep reserved) []
  { pathSegs := setPathname pathname, query := qs }

/-- `commandFromArgv` (POST variant): first segment of the built URL's
pathname after stripping leading slashes; empty means `undefined`.
`resolveBeforeFetch` calls it without options. -/
def commandFromArgv (argv : Argv) (options : AdapterOptions) : Option String :=
  let url := buildUrlFromArgv argv options
  let stripped := url.pathname.data.dropWhile (· == '/')
  let seg := stripped.takeWhile (fun c => ¬ c == '/')
  if seg.isEmpty then none else some (String.mk seg)

/-! ## Route listing and example generation -/

def listGetRoutes (app : AppM) : List String :=
  (app.routes.filter (fun r => r.method = "GET")).map (·.path)

def listPostRoutes (app : AppM) : List String :=
  (app.routes.filter (fun r => r.method = "POST")).map (·.path)

/-- Split a character list on one separator character. -/
def splitOnChar (sep : Char) : List Char → List (List Char)
  | [] => [[]]
  | c :: cs =>
    if c = sep then [] :: splitOnChar sep cs
    else
      match splitOnChar sep cs with
      | [] => [[c]]
      | s :: ss => (c :: s) :: ss

/-- `routePathToCommandSegments`: strip leading slashes, split on `/`,
drop empty segments, rewrite `:name` to `<name>`. -/
def routePathToCommandSegments (routePath : String) : List String :=
  (((splitOnChar '/' (routePath.data.dropWhile (· == '/'))).filter
      (fun s => ¬ s.isEmpty)).map
    (fun s => if s.head? = some ':' then '<' :: s.tail ++ ['>'] else s)).map String.mk

def buildCommandExample (routePath : String) (cmdBase : String) : String :=
  let segs := routePathToCommandSegments routePath
  cmdBase ++ (if segs.isEmpty then "" else " " ++ String.intercalate " " segs)

def buildCommandExamples (routes : List String) (cmdBase : String) : List String :=
  routes.map (fun p => buildCommandExample p cmdBase)

/-! ## JSON values, `JSON.parse`, and `JSON.stringify(v, null, 2)`

Numbers are kept as their source text; this is exact for the integer
literals serialized here (`res.status` and integer data).  `JSON.parse`
is embedded as a fuel-indexed recursive-descent parser of the JSON
grammar; a `none` result corresponds to `JSON.parse` throwing.  Lone
surrogate escapes, which JavaScript strings can hold but Lean strings
cannot, decode to U+FFFD. -/

inductive JsValue where
  | nullv
  | boolv (b : Bool)
  | numv (raw : String)
  | str (s : String)
  | arr (xs : List JsValue)
  | obj (fields : List (String × JsValue))

def isJsonWs (c : Char) : Bool :=
  c == ' ' || c.toNat == 9 || c.toNat == 10 || c.toNat == 13

def skipWs (l : List Char) : List Char :=
  l.dropWhile isJsonWs

def hexVal (c : Char) : Option Nat :=
  if 48 ≤ c.toNat && c.toNat ≤ 57 then some (c.toNat - 48)
  else if 65 ≤ c.toNat && c.toNat ≤ 70 then some (c.toNat - 55)
  else if 97 ≤ c.toNat && c.toNat ≤ 102 then some (c.toNat - 87)
  else none

def hex4 : List Char → Option (Nat × List Char)
  | a :: b :: c :: d :: rest =>
    match hexVal a, hexVal b, hexVal c, hexVal d with
    | some x, some y, some z, some w => some (((x * 16 + y) * 16 + z) * 16 + w, rest)
    | _, _, _, _ => none
  | _ => none

/-- The body of a JSON string, after the opening quote; yields the
decoded characters and the input after the closing quote. -/
def parseJsonStringBody : Nat → List Char → Option (List Char × List Char)
  | 0, _ => none
  | _, [] => none
  | fuel + 1, c :: cs =>
    let cont := fun (d : Char) (rest : List Char) =>
      (parseJsonStringBody fuel rest).map (fun p => (d :: p.1, p.2))
    if c = '"' then some ([], cs)
    else if c = '\\' then
      match cs with
      | [] => none
      | e :: cs' =>
        if e = '"' then cont '"' cs'
        else if e = '\\' then cont '\\' cs'
        else if e = '/' then cont '/' cs'
        else if e = 'b' then cont (Char.ofNat 8) cs'
        else if e = 'f' then cont (Char.ofNat 12) cs'
        else if e = 'n' then cont (Char.ofNat 10) cs'
        else if e = 'r' then cont (Char.ofNat 13) cs'
        else if e = 't' then cont (Char.ofNat 9) cs'
        else if e = 'u' then
          match hex4 cs' with
          | none => none
          | some (n, rest) =>
            if 55296 ≤ n && n ≤ 56319 then
              match rest with
              | u1 :: u2 :: rest2 =>
                if u1 = '\\' && u2 = 'u' then
                  match hex4 rest2 with
                  | some (n2, rest3) =>
                    if 56320 ≤ n2 && n2 ≤ 57343 then
                      cont (Char.ofNat (65536 + (n - 55296) * 1024 + (n2 - 56320))) rest3
                    else cont (Char.ofNat 65533) rest
                  | none => cont (Char.ofNat 65533) rest
                else cont (Char.ofNat 65533) rest
              | _ => cont (Char.ofNat 65533) rest
            else if 56320 ≤ n && n ≤ 57343 then cont (Char.ofNat 65533) rest
            else cont (Char.ofNat n) rest
        else none
    else if c.toNat < 32 then none
    else cont c cs

def jsonDigits (l : List Char) : List Char × List Char :=
  (l.takeWhile (fun c => 48 ≤ c.toNat && c.toNat ≤ 57),
   l.dropWhile (fun c => 48 ≤ c.toNat && c.toNat ≤ 57))

/-- A JSON number: optional minus, integer part without leading zeros,
optional fraction, optional exponent; yields the raw text and the rest. -/
def parseJsonNumber (l : List Char) : Option (List Char × List Char) :=
  let afterMinus := fun (sign : List Char) (l1 : List Char) =>
    match l1 with
    | [] => none
    | c :: cs =>
      let intPart :=
        if c = '0' then some ([c], cs)
        else if 49 ≤ c.toNat && c.toNat ≤ 57 then
          let (ds, rest) := jsonDigits cs
          some (c :: ds, rest)
        else none
      match intPart with
      | none => none
      | some (ip, l2) =>
        let (fp, l3) :=
          match l2 with
          | '.' :: cs2 =>
            let (ds, rest) := jsonDigits cs2
            if ds.isEmpty then ([], l2) else ('.' :: ds, rest)
          | _ => ([], l2)
        if fp.isEmpty && (match l2 with | '.' :: _ => true | _ => false) then none
        else
          let (ep, l4) :=
            match l3 with
            | e :: cs3 =>
              if e = 'e' || e = 'E' then
                match cs3 with
                | s :: cs4 =>
                  if s = '+' || s = '-' then
                    let (ds, rest) := jsonDigits cs4
                    if ds.isEmpty then ([], l3) else (e :: s :: ds, rest)
                  else
                    let (ds, rest) := jsonDigits cs3
                    if ds.isEmpty then ([], l3) else (e :: ds, rest)
                | [] => ([], l3)
              else ([], l3)
            | [] => ([], l3)
          let expFail :=
            match l3 with
            | e :: _ => (e = 'e' || e = 'E') && ep.isEmpty
            | [] => false
          if expFail then none
          else some (sign ++ ip ++ fp ++ ep, l4)
  match l with
  | '-' :: l1 => afterMinus ['-'] l1
  | _ => afterMinus [] l

mutual

def parseJsonValue : Nat → List Char → Option (JsValue × List Char)
  | 0, _ => none
  | fuel + 1, l =>
    match skipWs l with
    | [] => none
    | c :: cs =>
      if c = '"' then
        (parseJsonStringBody (fuel + 1) cs).map (fun p => (.str (String.mk p.1), p.2))
      else if c = '[' then
        match skipWs cs with
        | ']' :: rest => some (.arr [], rest)
        | _ => (parseJsonElems fuel cs).map (fun p => (.arr p.1, p.2))
      else if c.toNat = 123 then
        match skipWs cs with
        | c2 :: rest =>
          if c2.toNat = 125 then some (.obj [], rest)
          else (parseJsonMembers fuel cs).map (fun p => (.obj p.1, p.2))
        | [] => none
      else
        match c :: cs with
        | 't' :: 'r' :: 'u' :: 'e' :: rest => some (.boolv true, rest)
        | 'f' :: 'a' :: 'l' :: 's' :: 'e' :: rest => some (.boolv false, rest)
        | 'n' :: 'u' :: 'l' :: 'l' :: rest => some (.nullv, rest)
        | l' => (parseJsonNumber l').map (fun p => (.numv (String.mk p.1), p.2))

/-- Array elements after `[`, at least one element. -/
def parseJsonElems : Nat → List Char → Option (List JsValue × List Char)
  | 0, _ => none
  | fuel + 1, l =>
    match parseJsonValue fuel l with
    | none => none
    | some (v, rest) =>
      match skipWs rest with
      | ',' :: rest2 =>
        (parseJsonElems fuel rest2).map (fun p => (v :: p.1, p.2))
      | ']' :: rest2 => some ([v], rest2)
      | _ => none

/-- Object members after the opening brace, at least one member. -/
def parseJsonMembers : Nat → List Char → Option (List (String × JsValue) × List Char)
  | 0, _ => none
  | fuel + 1, l =>
    match skipWs l with
    | '"' :: cs =>
      match parseJsonStringBody (fuel + 1) cs with
      | none => none
      | some (k, rest) =>
        match skipWs rest with
        | ':' :: rest2 =>
          match parseJsonValue fuel rest2 with
          | none => none
          | some (v, rest3) =>
            match skipWs rest3 with
            | ',' :: rest4 =>
              (parseJsonMembers fuel rest4).map (fun p => ((String.mk k, v) :: p.1, p.2))
            | c :: rest4 =>
              if c.toNat = 125 then some ([(String.mk k, v)], rest4) else none
            | [] => none
        | _ => none
    | _ => none

end

/-- `JSON.parse`: parse a complete JSON text (surrounding whitespace
allowed); `none` corresponds to a thrown `SyntaxError`. -/
def jsonParse (s : String) : Option JsValue :=
  match parseJsonValue (s.data.length * 4 + 8) s.data with
  | some (v, rest) => if (skipWs rest).isEmpty then some v else none
  | none => none

/-! ### `JSON.stringify(v, null, 2)` -/

def indentChars (d : Nat) : List Char :=
  List.replicate (2 * d) ' '

mutual

/-- Serialization with a two-space gap at nesting depth `d`. -/
def strfy2 : Nat → JsValue → List Char
  | _, .nullv => ['n', 'u', 'l', 'l']
  | _, .boolv true => ['t', 'r', 'u', 'e']
  | _, .boolv false => ['f', 'a', 'l', 's', 'e']
  | _, .numv raw => raw.data
  | _, .str s => (jsonQuote s).data
  | _, .arr [] => ['[', ']']
  | d, .arr (x :: xs) =>
    '[' :: '\n' ::
      List.intercalate [',', '\n'] (strfy2Items (d + 1) (x :: xs)) ++
      '\n' :: indentChars d ++ [']']
  | _, .obj [] => [Char.ofNat 123, Char.ofNat 125]
  | d, .obj (f :: fs) =>
    Char.ofNat 123 :: '\n' ::
      List.intercalate [',', '\n'] (strfy2Fields (d + 1) (f :: fs)) ++
      '\n' :: indentChars d ++ [Char.ofNat 125]

def strfy2Items : Nat → List JsValue → List (List Char)
  | _, [] => []
  | d, x :: xs => (indentChars d ++ strfy2 d x) :: strfy2Items d xs

def strfy2Fields : Nat → List (String × JsValue) → List (List Char)
  | _, [] => []
  | d, (k, v) :: fs =>
    (indentChars d ++ (jsonQuote k).data ++ ':' :: ' ' :: strfy2 d v) :: strfy2Fields d fs

end

def stringify2 (v : JsValue) : String :=
  String.mk (strfy2 0 v)

/-! ## The minimist boundary

minimist itself is out of scope (an opaque tokenizer); the two call
sites use two distinct parse configurations, so the embedding abstracts
minimist as a function from the raw argv and the configuration used to a
parsed `Argv`, and theorems quantify over it. -/

/-- The two minimist configurations appearing in the source: the
`runCliDefault` one (`boolean: ['json','list','help'], string:
['base','env'], alias h/e, '--': true`) and the `adaptAndFetch` one
(without the booleans). -/
inductive ParseCfg where
  | cli
  | adapt
  deriving DecidableEq, Repr

def Minimist : Type := List String → ParseCfg → Argv

structure RunCliResult where
  code : Nat
  lines : List String
  req : Option RequestM := none
  res : Option ResponseM := none
  deriving DecidableEq, Repr

/-! ## GET variant (`src/index.ts`) -/

namespace GetAdapter

/-- `new Request(url, { method: 'GET' })`. -/
def buildRequestFromArgv (argv : Argv) (options : AdapterOptions) : RequestM :=
  { url := buildUrlFromArgv argv options, method := "GET" }

/-- The env merge of the GET `adaptAndFetch`:
`{ ...(options?.env ?? {}), ...envFromFlags }` (no process env). -/
def mergedEnv (optionsEnv : JsObj) (envFlag : StrOrList) : JsObj :=
  objAssign (objAssign [] optionsEnv) (parseEnvFlags envFlag)

def adaptAndFetch (m : Minimist) (app : AppM) (argvRaw : List String)
    (options : AdapterOptions) : RequestM × ResponseM :=
  let argv := m argvRaw .adapt
  let req := buildRequestFromArgv argv options
  let res := app.fetch req (mergedEnv options.env argv.env)
  (req, res)

/-- `listCommandExamples` with the command base resolved (the ambient
`detectCommandBase()` environment probe is out of scope; its result is a
parameter). -/
def listCommandExamples (app : AppM) (cmdBase : String) : List String :=
  buildCommandExamples (listGetRoutes app) cmdBase

/-- The options `runCliDefault` forwards to `adaptAndFetch`. -/
def forwardedOptions (argv : Argv) (options : AdapterOptions) : AdapterOptions :=
  { base := argv.base
    env := options.env
    reservedKeys := ["json", "list", "help"] ++ options.reservedKeys }

def runCliDefault (m : Minimist) (app : AppM) (detected : String)
    (argvRaw : List String) (options : AdapterOptions) : RunCliResult :=
  let argv := m argvRaw .cli
  if argv.list || argv.help then
    { code := 0, lines := listCommandExamples app detected }
  else
    let reqres := adaptAndFetch m app argvRaw (forwardedOptions argv options)
    let req := reqres.1
    let res := reqres.2
    let text := res.bodyText
    let lines :=
      if argv.json then
        [stringify2 (.obj [("status", .numv res.status.repr),
                           ("data", (jsonParse text).getD (.str text))])]
      else [text]
    { code := if res.ok then 0 else 1, lines := lines,
      req := some req, res := some res }

end GetAdapter

/-! ## POST variant -/

namespace PostAdapter

/-- `new Request(url, { method: 'POST', body, headers })`: the body is
the JSON encoding of the `--`-token object when that object is
non-empty; the content-type header exists exactly then. -/
def buildRequestFromArgv (argv : Argv) (options : AdapterOptions) : RequestM :=
  let url := buildUrlFromArgv argv options
  let bodyObj := parseBodyTokens (.listv argv.ddash)
  let hasBody := ¬ bodyObj.isEmpty
  { url := url
    method := "POST"
    body := if hasBody then some (jsonStringifyFlat bodyObj) else none
    headers := if hasBody then [("content-type", "application/json")] else [] }

def resolveBeforeFetch (before : Option BeforeCfg) (argv : Argv) :
    Option BeforeFetchFn :=
  match before with
  | none => none
  | some (.fnc f) => some f
  | some (.table t) =>
    match commandFromArgv argv {} with
    | some cmd => (t.find? (fun p => p.1 = cmd)).map (·.2)
    | none => none

/-- The env merge of the POST `adaptAndFetch`:
`{ ...envFromProcess, ...(options?.env ?? {}), ...envFromFlags }`. -/
def mergedEnv (procEnv : JsObj) (optionsEnv : JsObj) (envFlag : StrOrList) : JsObj :=
  objAssign (objAssign (objAssign [] procEnv) optionsEnv) (parseEnvFlags envFlag)

def adaptAndFetch (m : Minimist) (app : AppM) (procEnv : JsObj)
    (argvRaw : List String) (options : AdapterOptions) : RequestM × ResponseM :=
  let argv := m argvRaw .adapt
  let req0 := buildRequestFromArgv argv options
  let req :=
    match resolveBeforeFetch options.beforeFetch argv with
    | none => req0
    | some h =>
      match h req0 argv with
      | .request r => r
      | .nonRequest => req0
  let res := app.fetch req (mergedEnv procEnv options.env argv.env)
  (req, res)

def listCommandExamples (app : AppM) (cmdBase : String) : List String :=
  buildCommandExamples (listPostRoutes app) cmdBase

/-- The options `runCliDefault` forwards to `adaptAndFetch`. -/
def forwardedOptions (argv : Argv) (options : AdapterOptions) : AdapterOptions :=
  { base := argv.base
    env := options.env
    reservedKeys := ["json", "list", "help"] ++ options.reservedKeys
    beforeFetch := options.beforeFetch }

def runCliDefault (m : Minimist) (app : AppM) (procEnv : JsObj) (detected : String)
    (argvRaw : List String) (options : AdapterOptions) : RunCliResult :=
  let argv := m argvRaw .cli
  if argv.list || argv.help then
    { code := 0, lines := listCommandExamples app detected }
  else
    let reqres := adaptAndFetch m app procEnv argvRaw (forwardedOptions argv options)
    let req := reqres.1
    let res := reqres.2
    let text := res.bodyText
    let lines :=
      if argv.json then
        [stringify2 (.obj [("status", .numv res.status.repr),
                           ("data", (jsonParse text).getD (.str text))])]
      else [text]
    { code := if res.ok then 0 else 1, lines := lines,
      req := some req, res := some res }

end PostAdapter

/-! ## OpenAPI introspection (`listRoutesWithExamplesFromOpenApi`)

The consumed document shape: `paths[pathString] = { parameters?,
post?: { parameters?, requestBody?: { content?: { 'application/json'?:
{ schema? } } } } }`.  Objects are association lists in key order; the
OpenAPI `in` field is called `inLoc` (`in` is a Lean keyword). -/

inductive OaSchema where
  | mk (type : Option String) (properties : Option (List (String × OaSchema)))
      (required : Option (List String)) (description : Option String)

def OaSchema.type : OaSchema → Option String
  | .mk t _ _ _ => t

def OaSchema.properties : OaSchema → Option (List (String × OaSchema))
  | .mk _ p _ _ => p

def OaSchema.required : OaSchema → Option (List String)
  | .mk _ _ r _ => r

def OaSchema.description : OaSchema → Option String
  | .mk _ _ _ d => d

structure OaParamSrc where
  name : String
  inLoc : String
  required : Option Bool := none
  description : Option String := none
  schema : Option OaSchema := none

structure OaMediaType where
  schema : Option OaSchema := none

structure OaRequestBody where
  content : Option (List (String × OaMediaType)) := none

structure OaOperation where
  parameters : Option (List OaParamSrc) := none
  requestBody : Option OaRequestBody := none

structure OaPathItem where
  parameters : Option (List OaParamSrc) := none
  post : Option OaOperation := none

structure OaDoc where
  paths : Option (List (String × OaPathItem)) := none

/-- The exported `OpenApiParam` shape. -/
structure OpenApiParam where
  name : String
  inLoc : String
  required : Option Bool := none
  description : Option String := none
  schema : Option OaSchema := none

/-- Scan to the first closing brace; `none` when there is none before a
newline (the lazy `(.*?)` of `/\{(.*?)\}/g` cannot cross a newline). -/
def scanToCloseBrace : List Char → Option (List Char × List Char)
  | [] => none
  | c :: cs =>
    if c.toNat = 125 then some ([], cs)
    else if c = '\n' then none
    else (scanToCloseBrace cs).map (fun p => (c :: p.1, p.2))

/-- `String(rawPath).replace(/\{(.*?)\}/g, ':$1')`, fuel-indexed (the
fuel, set to the input length, bounds the number of replacements; every
step consumes at least one character). -/
def normalizeBracesF : Nat → List Char → List Char
  | 0, l => l
  | _ + 1, [] => []
  | fuel + 1, c :: cs =>
    if c.toNat = 123 then
      match scanToCloseBrace cs with
      | some (inner, rest) => ':' :: inner ++ normalizeBracesF fuel rest
      | none => c :: normalizeBracesF fuel cs
    else c :: normalizeBracesF fuel cs

def normalizeBraces (l : List Char) : List Char :=
  normalizeBracesF l.length l

structure OaResult where
  routes : List String
  examples : List String
  params : List (List OpenApiParam)

def listRoutesWithExamplesFromOpenApi (doc : OaDoc) (cmdBase : String) : OaResult :=
  let pathsList := doc.paths.getD []
  let step := fun (acc : OaResult) (entry : String × OaPathItem) =>
    match entry.2.post with
    | none => acc
    | some post =>
      let route := String.mk (normalizeBraces entry.1.data)
      let fromSrc := fun (ps : Option (List OaParamSrc)) =>
        (ps.getD []).map (fun p =>
          { name := p.name, inLoc := p.inLoc, required := p.required,
            description := p.description, schema := p.schema : OpenApiParam })
      let collected := fromSrc entry.2.parameters ++ fromSrc post.parameters
      let bodyParams :=
        match post.requestBody with
        | none => []
        | some rb =>
          match (rb.content.getD []).find? (fun p => p.1 = "application/json") with
          | none => []
          | some mtEntry =>
            match mtEntry.2.schema with
            | none => []
            | some schema =>
              if schema.type = some "object" then
                match schema.properties with
                | none => []
                | some props =>
                  let req := schema.required.getD []
                  props.map (fun np =>
                    { name := np.1, inLoc := "body",
                      required := some (req.contains np.1),
                      description := np.2.description,
                      schema := some np.2 : OpenApiParam })
              else []
      let paramList := collected ++ bodyParams
      let segs := routePathToCommandSegments route
      let ex0 := cmdBase ++
        (if segs.isEmpty then "" else " " ++ String.intercalate " " segs)
      let ex := paramList.foldl
        (fun e p =>
          if p.inLoc = "query" || p.inLoc = "body" then
            e ++ " --" ++ p.name ++ " <" ++ p.name ++ ">"
          else e)
        ex0
      { routes := acc.routes ++ [route], examples := acc.examples ++ [ex],
        params := acc.params ++ [paramList] }
  pathsList.foldl step { routes := [], examples := [], params := [] }

/-! ## Spec-side definition for the pathname claim

`specClaimedPathname` is written from the specification's words (not from
the code): the pathname is claimed to be `/` followed by the slash-join
of the slash-trimmed base and the percent-encoded form of each kept
positional token, with empty path components dropped. -/

def specClaimedPathname (base : String) (toks : List JsTok) : String :=
  String.mk ('/' ::
    joinWithSlash
      ((trimSlashesL base.data ::
          toks.map (fun t => encodeURIComponentL t.toStr.data)).filter
        (fun p => ¬ p.isEmpty)))

/-! ### Character-class predicates used by the pathname theorems -/

/-- A character the URL path parser transports unchanged and never treats
as a separator: outside the path percent-encode set, and neither `/` nor
`\`.  Every character `encodeURIComponent` emits is of this kind. -/
def pathPlainChar (c : Char) : Bool :=
  !(inPathEncodeSet c) && !(c == '/') && !(c == '\\')

/-- A base-string character the URL path parser transports unchanged
(`/` is allowed: it separates base segments). -/
def basePlainChar (c : Char) : Bool :=
  !(inPathEncodeSet c) && !(c == '\\')

/-- Neither a single-dot nor a double-dot URL path segment. -/
def notDotSeg (l : List Char) : Bool :=
  !(isSingleDotSeg l) && !(isDoubleDotSeg l)

/-! # Theorems

Auxiliary lemmas first, then one theorem per claim (with its witness or
counterexample). -/

/-! ## Object-map lemmas -/

def keysOf (o : JsObj) : List String :=
  o.map Prod.fst

theorem lastGet_eq_none_of_not_key (o : JsObj) (k : String)
    (h : ¬ k ∈ keysOf o) : lastGet o k = none := by
  induction o with
  | nil => rfl
  | cons p o ih =>
    obtain ⟨pk, pv⟩ := p
    have h1 : ¬ k ∈ keysOf o := fun hm => h (List.mem_cons_of_mem _ hm)
    have h2 : ¬ pk = k := fun he => h (he ▸ List.mem_cons_self _ _)
    simp [lastGet, ih h1, h2]

theorem jsGet_none_iff_lastGet_none (o : JsObj) (k : String) :
    jsGet o k = none ↔ lastGet o k = none := by
  induction o with
  | nil => simp [jsGet, lastGet, List.find?]
  | cons p o ih =>
    obtain ⟨pk, pv⟩ := p
    rw [jsGet_cons]
    by_cases h : pk = k
    · simp only [if_pos h, lastGet, h]
      constructor
      · intro hc
        exact absurd hc (by simp)
      · intro hc
        cases hl : lastGet o k with
        | some v => rw [hl] at hc; exact absurd hc (by simp)
        | none => rw [hl] at hc; simp at hc
    · simp only [if_neg h, lastGet]
      rw [ih]
      cases hl : lastGet o k with
      | some v => simp
      | none => simp [h]

theorem keysOf_objSet (o : JsObj) (k v : String) :
    keysOf (objSet o k v) =
      if k ∈ keysOf o then keysOf o else keysOf o ++ [k] := by
  induction o with
  | nil => simp [objSet, keysOf]
  | cons p o ih =>
    obtain ⟨pk, pv⟩ := p
    by_cases h : pk = k
    · subst h
      simp [objSet, keysOf]
    · have hne : ¬ k = pk := fun he => h he.symm
      simp only [keysOf, objSet, if_neg h, List.map_cons]
      simp only [keysOf] at ih
      rw [ih]
      by_cases hm : k ∈ List.map Prod.fst o
      · simp [hm, hne]
      · simp [hm, hne]

theorem nodup_keysOf_objSet (o : JsObj) (k v : String)
    (h : (keysOf o).Nodup) : (keysOf (objSet o k v)).Nodup := by
  rw [keysOf_objSet]
  by_cases hm : k ∈ keysOf o
  · simpa [hm]
  · have hd : (keysOf o).Disjoint [k] := by
      intro a ha hb
      rw [List.mem_singleton] at hb
      subst hb
      exact hm ha
    simpa [hm] using List.Nodup.append h (List.nodup_singleton k) hd

theorem nodup_keysOf_objAssign (o : JsObj) (ps : JsObj)
    (h : (keysOf o).Nodup) : (keysOf (objAssign o ps)).Nodup := by
  induction ps generalizing o with
  | nil => exact h
  | cons p ps ih => exact ih _ (nodup_keysOf_objSet _ _ _ h)

theorem jsGet_eq_lastGet_of_nodup (o : JsObj) (h : (keysOf o).Nodup)
    (k : String) : jsGet o k = lastGet o k := by
  induction o with
  | nil => simp [jsGet, lastGet, List.find?]
  | cons p o ih =>
    obtain ⟨pk, pv⟩ := p
    have hn : (keysOf o).Nodup := (List.nodup_cons.mp h).2
    have hnm : ¬ pk ∈ keysOf o := (List.nodup_cons.mp h).1
    rw [jsGet_cons, ih hn]
    by_cases he : pk = k
    · subst he
      simp [lastGet, lastGet_eq_none_of_not_key o pk hnm]
    · simp only [if_neg he, lastGet]
      cases hl : lastGet o k with
      | some v => simp
      | none => simp [he]

theorem nodup_keysOf_parseEnvFlags (fl : StrOrList) :
    (keysOf (parseEnvFlags fl)).Nodup :=
  nodup_keysOf_objAssign _ _ (by simp [keysOf])

/-! ## Claim C9 -/

/-- **C9.** A `--env` or body token without `=` is not an error: the
splitting lambda maps it to the pair `(token, "")`, and in the objects
built by `parseEnvFlags` and `parseBodyTokens` a later token's entry
overwrites an earlier token's entry with the same key (lookup returns the
value contributed by the last such token). -/
theorem token_no_eq_defaults_and_later_overwrites :
    (∀ t : String, ¬ '=' ∈ t.data → splitEqToken t = (t, "")) ∧
    (∀ (fl : StrOrList) (k : String),
      jsGet (parseEnvFlags fl) k = lastGet (fl.concatList.map splitEqToken) k) ∧
    (∀ (tk : StrOrList) (k : String),
      jsGet (parseBodyTokens tk) k = lastGet (tk.concatList.map splitEqToken) k) := by
  refine ⟨splitEqToken_of_no_eq, ?_, ?_⟩
  · intro fl k
    exact jsGet_objFromEntries _ _
  · intro tk k
    exact jsGet_objFromEntries _ _

/-- Witness for C9: the concrete token `FOO` has no `=` and maps to
`("FOO", "")`; with tokens `K=a` then `K=b` the lookup of `K` in the
parsed env object is the later token's value `b`. -/
theorem token_no_eq_defaults_and_later_overwrites_witness :
    splitEqToken "FOO" = ("FOO", "") ∧
    jsGet (parseEnvFlags (.listv ["K=a", "K=b"])) "K" = some "b" ∧
    jsGet (parseBodyTokens (.listv ["x=1", "noeq"])) "noeq" = some "" := by
  refine ⟨token_no_eq_defaults_and_later_overwrites.1 "FOO" (by decide), ?_, ?_⟩
  · rw [token_no_eq_defaults_and_later_overwrites.2.1 (.listv ["K=a", "K=b"]) "K"]
    decide
  · rw [token_no_eq_defaults_and_later_overwrites.2.2 (.listv ["x=1", "noeq"]) "noeq"]
    decide

/-! ## Claim C3 -/

/-- **C3.** Environment-merge precedence is variant-specific.  In the GET
variant the handler environment is `options.env` overridden by the
`--env` mapping and contains nothing else (the process environment is
not included): a key set in both resolves to the flag's value, and a key
set in neither is absent.  In the POST variant the process environment is
merged lowest: a key set in both `options.env` and the flags resolves to
the flag's value, and a process-environment key absent from both
overrides survives unchanged. -/
theorem env_merge_precedence :
    (∀ (oe : JsObj) (fl : StrOrList) (k v v' : String),
        jsGet oe k = some v' →
        jsGet (parseEnvFlags fl) k = some v →
        jsGet (GetAdapter.mergedEnv oe fl) k = some v) ∧
    (∀ (pe oe : JsObj) (fl : StrOrList) (k v v' : String),
        jsGet oe k = some v' →
        jsGet (parseEnvFlags fl) k = some v →
        jsGet (PostAdapter.mergedEnv pe oe fl) k = some v) ∧
    (∀ (oe : JsObj) (fl : StrOrList) (k : String),
        jsGet oe k = none →
        jsGet (parseEnvFlags fl) k = none →
        jsGet (GetAdapter.mergedEnv oe fl) k = none) ∧
    (∀ (pe oe : JsObj) (fl : StrOrList) (k w : String),
        lastGet pe k = some w →
        jsGet oe k = none →
        jsGet (parseEnvFlags fl) k = none →
        jsGet (PostAdapter.mergedEnv pe oe fl) k = some w) := by
  have hflag : ∀ (fl : StrOrList) (k v : String),
      jsGet (parseEnvFlags fl) k = some v → lastGet (parseEnvFlags fl) k = some v := by
    intro fl k v h
    rw [← jsGet_eq_lastGet_of_nodup _ (nodup_keysOf_parseEnvFlags fl)]
    exact h
  have hflagn : ∀ (fl : StrOrList) (k : String),
      jsGet (parseEnvFlags fl) k = none → lastGet (parseEnvFlags fl) k = none := by
    intro fl k h
    exact (jsGet_none_iff_lastGet_none _ _).mp h
  refine ⟨?_, ?_, ?_, ?_⟩
  · intro oe fl k v v' _ hf
    rw [GetAdapter.mergedEnv, jsGet_objAssign, hflag fl k v hf]
  · intro pe oe fl k v v' _ hf
    rw [PostAdapter.mergedEnv, jsGet_objAssign, hflag fl k v hf]
  · intro oe fl k ho hf
    rw [GetAdapter.mergedEnv, jsGet_objAssign, hflagn fl k hf, jsGet_objAssign,
      (jsGet_none_iff_lastGet_none oe k).mp ho]
    simp [jsGet, List.find?]
  · intro pe oe fl k w hp ho hf
    rw [PostAdapter.mergedEnv, jsGet_objAssign, hflagn fl k hf, jsGet_objAssign,
      (jsGet_none_iff_lastGet_none oe k).mp ho, jsGet_objAssign, hp]

/-- Witness for C3: with `options.env = {K: low}` and `--env K=high`, the
resolved value of `K` is `high` in both variants; a key set in neither is
absent in the GET merge; and a process-env-only key survives in the POST
merge. -/
theorem env_merge_precedence_witness :
    jsGet (GetAdapter.mergedEnv [("K", "low")] (.one "K=high")) "K" = some "high" ∧
    jsGet (PostAdapter.mergedEnv [("P", "p0")] [("K", "low")] (.one "K=high")) "K" = some "high" ∧
    jsGet (GetAdapter.mergedEnv [("K", "low")] (.one "K=high")) "P" = none ∧
    jsGet (PostAdapter.mergedEnv [("P", "p0")] [("K", "low")] (.one "K=high")) "P" = some "p0" := by
  refine ⟨?_, ?_, ?_, ?_⟩
  · exact env_merge_precedence.1 [("K", "low")] (.one "K=high") "K" "high" "low"
      (by decide) (by decide)
  · exact env_merge_precedence.2.1 [("P", "p0")] [("K", "low")] (.one "K=high") "K" "high" "low"
      (by decide) (by decide)
  · exact env_merge_precedence.2.2.1 [("K", "low")] (.one "K=high") "P"
      (by decide) (by decide)
  · exact env_merge_precedence.2.2.2 [("P", "p0")] [("K", "low")] (.one "K=high") "P" "p0"
      (by decide) (by decide) (by decide)

/-! ## Claim C5 -/

/-- **C5.** In the POST variant the tail tokens are split on the first
`=` into the body object (`parseBodyTokens`, whose mapping and defaults
are characterized in the token-splitting theorems); the request body is
the JSON encoding of that object with a `content-type: application/json`
header exactly when the object is non-empty; an empty object gives no
body and no content-type header; the method is always POST. -/
theorem post_body_from_tail_tokens (argv : Argv) (options : AdapterOptions) :
    (PostAdapter.buildRequestFromArgv argv options).method = "POST" ∧
    parseBodyTokens (.listv argv.ddash) =
      objFromEntries (argv.ddash.map splitEqToken) ∧
    (parseBodyTokens (.listv argv.ddash) = [] →
      (PostAdapter.buildRequestFromArgv argv options).body = none ∧
      (PostAdapter.buildRequestFromArgv argv options).headers = []) ∧
    (parseBodyTokens (.listv argv.ddash) ≠ [] →
      (PostAdapter.buildRequestFromArgv argv options).body =
        some (jsonStringifyFlat (parseBodyTokens (.listv argv.ddash))) ∧
      (PostAdapter.buildRequestFromArgv argv options).headers =
        [("content-type", "application/json")]) := by
  refine ⟨rfl, rfl, ?_, ?_⟩
  · intro h
    simp [PostAdapter.buildRequestFromArgv, h]
  · intro h
    simp [PostAdapter.buildRequestFromArgv, List.isEmpty_iff, h]

/-- Witness for C5: tokens `a=1` and `noeq` give the JSON body
`{"a":"1","noeq":""}` with the content-type header; no tokens give no
body and no headers. -/
theorem post_body_from_tail_tokens_witness :
    (PostAdapter.buildRequestFromArgv { ddash := ["a=1", "noeq"] } {}).body =
      some (jsonStringifyFlat (parseBodyTokens (.listv ["a=1", "noeq"]))) ∧
    (PostAdapter.buildRequestFromArgv { ddash := ["a=1", "noeq"] } {}).headers =
      [("content-type", "application/json")] ∧
    (PostAdapter.buildRequestFromArgv { ddash := [] } {}).body = none ∧
    (PostAdapter.buildRequestFromArgv { ddash := [] } {}).headers = [] ∧
    (PostAdapter.buildRequestFromArgv { ddash := [] } {}).method = "POST" := by
  have h1 := (post_body_from_tail_tokens { ddash := ["a=1", "noeq"] } {}).2.2.2 (by decide)
  have h2 := (post_body_from_tail_tokens { ddash := [] } {}).2.2.1 (by decide)
  exact ⟨h1.1, h1.2, h2.1, h2.2, (post_body_from_tail_tokens { ddash := [] } {}).1⟩

/-! ## Claim C6 -/

/-- **C6.** Pre-dispatch hook resolution in the POST variant: a single
function is always the resolved hook; a keyed table resolves through the
command name (`commandFromArgv` with default options — the first
positional path segment), giving the table entry when the command is
determined and `none` when the command is undetermined; and in
`adaptAndFetch` the hook's return value replaces the built request only
when it is a `Request` instance — any other return value leaves the
originally built request dispatched. -/
theorem before_fetch_hook_resolution :
    (∀ (f : BeforeFetchFn) (argv : Argv),
        PostAdapter.resolveBeforeFetch (some (.fnc f)) argv = some f) ∧
    (∀ (t : List (String × BeforeFetchFn)) (argv : Argv) (cmd : String),
        commandFromArgv argv {} = some cmd →
        PostAdapter.resolveBeforeFetch (some (.table t)) argv =
          (t.find? (fun p => p.1 = cmd)).map (·.2)) ∧
    (∀ (t : List (String × BeforeFetchFn)) (argv : Argv),
        commandFromArgv argv {} = none →
        PostAdapter.resolveBeforeFetch (some (.table t)) argv = none) ∧
    (∀ (m : Minimist) (app : AppM) (pe : JsObj) (raw : List String)
        (options : AdapterOptions) (r0 : RequestM),
        (PostAdapter.adaptAndFetch m app pe raw
            { options with beforeFetch := some (.fnc (fun _ _ => .request r0)) }).1 = r0) ∧
    (∀ (m : Minimist) (app : AppM) (pe : JsObj) (raw : List String)
        (options : AdapterOptions),
        (PostAdapter.adaptAndFetch m app pe raw
            { options with beforeFetch := some (.fnc (fun _ _ => .nonRequest)) }).1 =
          PostAdapter.buildRequestFromArgv (m raw .adapt)
            { options with beforeFetch := some (.fnc (fun _ _ => .nonRequest)) }) := by
  refine ⟨fun f argv => rfl, ?_, ?_, fun m app pe raw options r0 => rfl,
    fun m app pe raw options => rfl⟩
  · intro t argv cmd h
    simp [PostAdapter.resolveBeforeFetch, h]
  · intro t argv h
    simp [PostAdapter.resolveBeforeFetch, h]

/-- Witness for C6: for argv with first positional `foo`, a table with a
`foo` entry resolves to that entry and the resolved hook's `Request`
return value becomes the dispatched request; with no positional
arguments the command is undetermined and a table resolves to `none`. -/
theorem before_fetch_hook_resolution_witness :
    (PostAdapter.resolveBeforeFetch
        (some (.fnc (fun r _ => .request r))) { underscore := [.str "foo"] }).isSome = true ∧
    (PostAdapter.resolveBeforeFetch
        (some (.table [("foo", fun _ _ => .nonRequest)])) { underscore := [] }) = none ∧
    (PostAdapter.adaptAndFetch (fun _ _ => {}) { fetch := fun _ _ => {} } [] []
        { beforeFetch := some (.fnc (fun _ _ =>
            .request { url := { pathSegs := [], query := [] }, method := "HOOKED" })) }).1 =
      { url := { pathSegs := [], query := [] }, method := "HOOKED" } := by
  refine ⟨?_, ?_, ?_⟩
  · rw [before_fetch_hook_resolution.1 (fun r _ => .request r) { underscore := [.str "foo"] }]
    rfl
  · exact before_fetch_hook_resolution.2.2.1 [("foo", fun _ _ => .nonRequest)]
      { underscore := [] } (by decide)
  · exact before_fetch_hook_resolution.2.2.2.1 (fun _ _ => {}) { fetch := fun _ _ => {} }
      [] [] {} { url := { pathSegs := [], query := [] }, method := "HOOKED" }

/-! ## Claim C7 -/

/-- **C7.** When the `list` or `help` boolean flag of the CLI parse is
set, `runCliDefault` (both variants) returns exit code 0 and exactly the
command examples derived from route introspection, with no request
dispatched (`req`/`res` absent) — the result is independent of the other
flags, of the caller options, and of the raw arguments beyond the two
booleans; otherwise the invocation is in dispatch mode and carries a
dispatched request and response, so every invocation ends in exactly one
of the two modes. -/
theorem list_mode_short_circuits (m : Minimist) (app : AppM) (pe : JsObj)
    (detected : String) (argvRaw : List String) (options : AdapterOptions) :
    ((m argvRaw .cli).list = true ∨ (m argvRaw .cli).help = true →
      GetAdapter.runCliDefault m app detected argvRaw options =
        { code := 0, lines := buildCommandExamples (listGetRoutes app) detected,
          req := none, res := none } ∧
      PostAdapter.runCliDefault m app pe detected argvRaw options =
        { code := 0, lines := buildCommandExamples (listPostRoutes app) detected,
          req := none, res := none }) ∧
    (¬ ((m argvRaw .cli).list = true ∨ (m argvRaw .cli).help = true) →
      (GetAdapter.runCliDefault m app detected argvRaw options).req =
        some (GetAdapter.adaptAndFetch m app argvRaw
          (GetAdapter.forwardedOptions (m argvRaw .cli) options)).1 ∧
      (PostAdapter.runCliDefault m app pe detected argvRaw options).req =
        some (PostAdapter.adaptAndFetch m app pe argvRaw
          (PostAdapter.forwardedOptions (m argvRaw .cli) options)).1) := by
  constructor
  · intro h
    have hb : ((m argvRaw .cli).list || (m argvRaw .cli).help) = true := by
      rcases h with h | h <;> simp [h]
    constructor
    · simp [GetAdapter.runCliDefault, hb, GetAdapter.listCommandExamples]
    · simp [PostAdapter.runCliDefault, hb, PostAdapter.listCommandExamples]
  · intro h
    rw [not_or] at h
    have hl : (m argvRaw .cli).list = false := by
      cases hv : (m argvRaw .cli).list
      · rfl
      · exact absurd hv h.1
    have hh : (m argvRaw .cli).help = false := by
      cases hv : (m argvRaw .cli).help
      · rfl
      · exact absurd hv h.2
    constructor
    · simp [GetAdapter.runCliDefault, hl, hh]
    · simp [PostAdapter.runCliDefault, hl, hh]

/-- Witness for C7: a parse with `list` set short-circuits both variants
to the introspected examples, regardless of the `json` flag also being
set and of non-trivial caller options. -/
theorem list_mode_short_circuits_witness :
    GetAdapter.runCliDefault
        (fun _ _ => { list := true, json := true, base := some "/v1" })
        { routes := [{ method := "GET", path := "/hello/:name" }],
          fetch := fun _ _ => { status := 500, bodyText := "x" } }
        "node cli.mjs" ["--list"] { env := [("A", "b")] } =
      { code := 0, lines := ["node cli.mjs hello <name>"], req := none, res := none } ∧
    PostAdapter.runCliDefault
        (fun _ _ => { list := true, json := true, base := some "/v1" })
        { routes := [{ method := "POST", path := "/hello/:name" }],
          fetch := fun _ _ => { status := 500, bodyText := "x" } }
        [] "node cli.mjs" ["--list"] { env := [("A", "b")] } =
      { code := 0, lines := ["node cli.mjs hello <name>"], req := none, res := none } := by
  have h := (list_mode_short_circuits
    (fun _ _ => { list := true, json := true, base := some "/v1" })
    { routes := [{ method := "GET", path := "/hello/:name" }],
      fetch := fun _ _ => { status := 500, bodyText := "x" } }
    [] "node cli.mjs" ["--list"] { env := [("A", "b")] }).1 (Or.inl rfl)
  have h2 := (list_mode_short_circuits
    (fun _ _ => { list := true, json := true, base := some "/v1" })
    { routes := [{ method := "POST", path := "/hello/:name" }],
      fetch := fun _ _ => { status := 500, bodyText := "x" } }
    [] "node cli.mjs" ["--list"] { env := [("A", "b")] }).1 (Or.inl rfl)
  refine ⟨?_, ?_⟩
  · rw [h.1]
    decide
  · rw [h2.2]
    decide

/-! ## Claim C10 -/

/-- **C10.** In dispatch mode the effective base path comes only from the
`--base` flag of the CLI parse: the whole `runCliDefault` result (both
variants) is unchanged under any change of the caller-supplied
`options.base`, the options forwarded to `adaptAndFetch` carry
`base := argv.base`, and an absent flag (`argv.base = none` /
`undefined`) builds the same URL as the empty base. -/
theorem runCliDefault_ignores_options_base (m : Minimist) (app : AppM)
    (pe : JsObj) (detected : String) (argvRaw : List String)
    (options : AdapterOptions) (b : Option String) :
    GetAdapter.runCliDefault m app detected argvRaw { options with base := b } =
      GetAdapter.runCliDefault m app detected argvRaw options ∧
    PostAdapter.runCliDefault m app pe detected argvRaw { options with base := b } =
      PostAdapter.runCliDefault m app pe detected argvRaw options ∧
    (∀ argv : Argv, (GetAdapter.forwardedOptions argv options).base = argv.base ∧
      (PostAdapter.forwardedOptions argv options).base = argv.base) ∧
    (∀ (argv : Argv) (o : AdapterOptions),
      buildUrlFromArgv argv { o with base := none } =
        buildUrlFromArgv argv { o with base := some "" }) :=
  ⟨rfl, rfl, fun _ => ⟨rfl, rfl⟩, fun _ _ => rfl⟩

/-- Witness for C10: with a `--base /v1` flag in argv, changing the
caller's `options.base` from `none` to `/IGNORED` leaves the result
(hence the request URL) unchanged. -/
theorem runCliDefault_ignores_options_base_witness :
    GetAdapter.runCliDefault (fun _ _ => { base := some "/v1", underscore := [.str "x"] })
        { fetch := fun _ _ => {} } "cmd" ["--base", "/v1", "x"]
        { base := some "/IGNORED" } =
      GetAdapter.runCliDefault (fun _ _ => { base := some "/v1", underscore := [.str "x"] })
        { fetch := fun _ _ => {} } "cmd" ["--base", "/v1", "x"] {} :=
  (runCliDefault_ignores_options_base
    (fun _ _ => { base := some "/v1", underscore := [.str "x"] })
    { fetch := fun _ _ => {} } [] "cmd" ["--base", "/v1", "x"] {}
    (some "/IGNORED")).1

/-! ## Claim C4 -/

/-- **C4.** In dispatch mode `runCliDefault` (both variants) emits
exactly one output line: with the `json` flag, the 2-space
pretty-printed `{status, data}` object where `data` is the parsed
response text, or the raw text itself when parsing fails (no error is
raised — the fallback is total); without the flag, the raw body text.
The exit code is 0 exactly when `res.ok` holds, independent of the
`json` flag. -/
theorem dispatch_mode_formatting (m : Minimist) (app : AppM) (pe : JsObj)
    (detected : String) (argvRaw : List String) (options : AdapterOptions)
    (hl : (m argvRaw .cli).list = false) (hh : (m argvRaw .cli).help = false) :
    ((m argvRaw .cli).json = true →
      (GetAdapter.runCliDefault m app detected argvRaw options).lines =
        [stringify2 (.obj [("status", .numv
            (GetAdapter.adaptAndFetch m app argvRaw
              (GetAdapter.forwardedOptions (m argvRaw .cli) options)).2.status.repr),
          ("data", (jsonParse (GetAdapter.adaptAndFetch m app argvRaw
              (GetAdapter.forwardedOptions (m argvRaw .cli) options)).2.bodyText).getD
            (.str (GetAdapter.adaptAndFetch m app argvRaw
              (GetAdapter.forwardedOptions (m argvRaw .cli) options)).2.bodyText))])] ∧
      (PostAdapter.runCliDefault m app pe detected argvRaw options).lines =
        [stringify2 (.obj [("status", .numv
            (PostAdapter.adaptAndFetch m app pe argvRaw
              (PostAdapter.forwardedOptions (m argvRaw .cli) options)).2.status.repr),
          ("data", (jsonParse (PostAdapter.adaptAndFetch m app pe argvRaw
              (PostAdapter.forwardedOptions (m argvRaw .cli) options)).2.bodyText).getD
            (.str (PostAdapter.adaptAndFetch m app pe argvRaw
              (PostAdapter.forwardedOptions (m argvRaw .cli) options)).2.bodyText))])]) ∧
    ((m argvRaw .cli).json = false →
      (GetAdapter.runCliDefault m app detected argvRaw options).lines =
        [(GetAdapter.adaptAndFetch m app argvRaw
            (GetAdapter.forwardedOptions (m argvRaw .cli) options)).2.bodyText] ∧
      (PostAdapter.runCliDefault m app pe detected argvRaw options).lines =
        [(PostAdapter.adaptAndFetch m app pe argvRaw
            (PostAdapter.forwardedOptions (m argvRaw .cli) options)).2.bodyText]) ∧
    (GetAdapter.runCliDefault m app detected argvRaw options).lines.length = 1 ∧
    (PostAdapter.runCliDefault m app pe detected argvRaw options).lines.length = 1 ∧
    (GetAdapter.runCliDefault m app detected argvRaw options).code =
      (if (GetAdapter.adaptAndFetch m app argvRaw
          (GetAdapter.forwardedOptions (m argvRaw .cli) options)).2.ok then 0 else 1) ∧
    (PostAdapter.runCliDefault m app pe detected argvRaw options).code =
      (if (PostAdapter.adaptAndFetch m app pe argvRaw
          (PostAdapter.forwardedOptions (m argvRaw .cli) options)).2.ok then 0 else 1) := by
  refine ⟨?_, ?_, ?_, ?_, ?_, ?_⟩
  · intro hj
    constructor
    · simp [GetAdapter.runCliDefault, hl, hh, hj]
    · simp [PostAdapter.runCliDefault, hl, hh, hj]
  · intro hj
    constructor
    · simp [GetAdapter.runCliDefault, hl, hh, hj]
    · simp [PostAdapter.runCliDefault, hl, hh, hj]
  · cases hj : (m argvRaw .cli).json <;>
      simp [GetAdapter.runCliDefault, hl, hh, hj]
  · cases hj : (m argvRaw .cli).json <;>
      simp [PostAdapter.runCliDefault, hl, hh, hj]
  · simp [GetAdapter.runCliDefault, hl, hh]
  · simp [PostAdapter.runCliDefault, hl, hh]

/-- The body text of the C4 witness scenario, the JSON text with the
braces written as code points 123/125: the object with the single member
`ok: true`. -/
def okJsonBody : String :=
  String.mk (Char.ofNat 123 :: '"' :: "ok".data ++ '"' :: ':' :: "true".data ++
    [Char.ofNat 125])

/-- Witness for C4: a handler answering status 200 with body
`{"ok":true}` and a CLI parse with the `json` flag set; the single
output line is the pretty-printed wrapper and the exit code is 0. -/
theorem dispatch_mode_formatting_witness :
    (GetAdapter.runCliDefault (fun _ _ => { json := true })
        { fetch := fun _ _ => { status := 200, bodyText := okJsonBody } }
        "cmd" [] {}).lines =
      [stringify2 (.obj [("status", .numv (200 : Nat).repr),
        ("data", (jsonParse okJsonBody).getD (.str okJsonBody))])] ∧
    (GetAdapter.runCliDefault (fun _ _ => { json := true })
        { fetch := fun _ _ => { status := 200, bodyText := okJsonBody } }
        "cmd" [] {}).code = 0 := by
  have h := dispatch_mode_formatting (fun _ _ => { json := true })
    { fetch := fun _ _ => { status := 200, bodyText := okJsonBody } }
    [] "cmd" [] {} rfl rfl
  refine ⟨(h.1 rfl).1, ?_⟩
  rw [h.2.2.2.2.1]
  decide

/-- Grounding example (independent of the claims): the concrete output
line of the C4 scenario is exactly the documented pretty-printed text,
spelled out character by character (code points 123/125 are the braces,
which cannot appear literally in this file's string literals). -/
def groundingExpectedLine : String :=
  String.mk ([Char.ofNat 123, '\n', ' ', ' ', '"'] ++ "status".data ++
    ['"', ':', ' '] ++ "200".data ++ [',', '\n', ' ', ' ', '"'] ++ "data".data ++
    ['"', ':', ' ', Char.ofNat 123, '\n', ' ', ' ', ' ', ' ', '"'] ++ "ok".data ++
    ['"', ':', ' '] ++ "true".data ++ ['\n', ' ', ' ', Char.ofNat 125, '\n', Char.ofNat 125])

theorem grounding_json_pretty_line :
    (GetAdapter.runCliDefault (fun _ _ => { json := true })
        { fetch := fun _ _ => { status := 200, bodyText := okJsonBody } }
        "cmd" [] {}).lines = [groundingExpectedLine] ∧
    (GetAdapter.runCliDefault (fun _ _ => { json := false })
        { fetch := fun _ _ => { status := 200, bodyText := okJsonBody } }
        "cmd" [] {}).lines = [okJsonBody] := by
  constructor <;> decide

/-! ## Claim C8 -/

/-- The OpenAPI document of the claim: one path `/user/{id}` with a
required path-item-level path parameter `id`, and a `post` operation with
a required query parameter `email` and a JSON request body of type
`object` whose property `age` is listed in the schema's `required`
array. -/
def c8Doc : OaDoc :=
  { paths := some [("/user/{id}",
      { parameters := some [{ name := "id", inLoc := "path", required := some true,
                              description := some "user id",
                              schema := some (.mk (some "string") none none none) }]
        post := some
          { parameters := some [{ name := "email", inLoc := "query",
                                  required := some true,
                                  description := some "user email",
                                  schema := some (.mk (some "string") none none none) }]
            requestBody := some
              { content := some [("application/json",
                  { schema := some (.mk (some "object")
                      (some [("age", .mk (some "integer") none none (some "user age"))])
                      (some ["age"]) none) })] } } })] }

/-- **C8.** On `c8Doc`, `listRoutesWithExamplesFromOpenApi` returns the
route `/user/:id` (brace placeholder normalized to a colon), the single
example `<base> user <id> --email <email> --age <age>` (path parameter
embedded positionally, query/body parameters as flags), and a single
parameter list with `id` (path), `email` (query), `age` (body) in that
order, each required. -/
theorem openapi_example_extraction (base : String) :
    (listRoutesWithExamplesFromOpenApi c8Doc base).routes = ["/user/:id"] ∧
    (listRoutesWithExamplesFromOpenApi c8Doc base).examples =
      [base ++ " user <id> --email <email> --age <age>"] ∧
    (listRoutesWithExamplesFromOpenApi c8Doc base).params =
      [[{ name := "id", inLoc := "path", required := some true,
          description := some "user id",
          schema := some (.mk (some "string") none none none) },
        { name := "email", inLoc := "query", required := some true,
          description := some "user email",
          schema := some (.mk (some "string") none none none) },
        { name := "age", inLoc := "body", required := some true,
          description := some "user age",
          schema := some (.mk (some "integer") none none (some "user age")) }]] := by
  refine ⟨rfl, ?_, rfl⟩
  show [((((((((((base ++ (" " ++ String.intercalate " " ["user", "<id>"])) ++ " --")
      ++ "email") ++ " <") ++ "email") ++ ">") ++ " --") ++ "age") ++ " <") ++ "age") ++ ">"] = _
  simp only [String.append_assoc]
  rfl

/-- Witness for C8 at the concrete command base `cmd`. -/
theorem openapi_example_extraction_witness :
    (listRoutesWithExamplesFromOpenApi c8Doc "cmd").examples =
      ["cmd user <id> --email <email> --age <age>"] ∧
    (listRoutesWithExamplesFromOpenApi c8Doc "cmd").routes = ["/user/:id"] := by
  have h := openapi_example_extraction "cmd"
  exact ⟨h.2.1, h.1⟩

/-! ## Claim C2 -/

theorem mem_uspSet (l : SearchParams) (k v : String) (p : String × String)
    (h : p ∈ uspSet l k v) : p = (k, v) ∨ p ∈ l := by
  induction l with
  | nil =>
    simp only [uspSet, List.mem_singleton] at h
    exact Or.inl h
  | cons q l ih =>
    obtain ⟨qk, qv⟩ := q
    by_cases he : qk = k
    · simp only [uspSet, if_pos he, List.mem_cons] at h
      rcases h with h | h
      · exact Or.inl h
      · exact Or.inr (List.mem_cons_of_mem _ (List.mem_of_mem_filter h))
    · simp only [uspSet, if_neg he, List.mem_cons] at h
      rcases h with h | h
      · exact Or.inr (h ▸ List.mem_cons_self _ _)
      · rcases ih h with h' | h'
        · exact Or.inl h'
        · exact Or.inr (List.mem_cons_of_mem _ h')

theorem mem_foldl_uspAppend (xs : List JsTok) (qs : SearchParams)
    (k : String) (p : String × String)
    (h : p ∈ xs.foldl (fun qs vv => uspAppend qs k vv.toStr) qs) :
    p.1 = k ∨ p ∈ qs := by
  induction xs generalizing qs with
  | nil => exact Or.inr h
  | cons x xs ih =>
    rcases ih _ h with h' | h'
    · exact Or.inl h'
    · rcases List.mem_append.mp h' with h' | h'
      · exact Or.inr h'
      · rw [List.mem_singleton.mp h']
        exact Or.inl rfl

theorem mem_queryStep (reserved : List String) (qs : SearchParams)
    (kv : String × FlagVal) (p : String × String)
    (h : p ∈ queryStep reserved qs kv) :
    (p.1 = kv.1 ∧ reserved.contains kv.1 = false) ∨ p ∈ qs := by
  unfold queryStep at h
  split at h
  · exact Or.inr h
  · next hr =>
    have hr' : reserved.contains kv.1 = false := by
      cases hv : reserved.contains kv.1
      · rfl
      · exact absurd hv hr
    cases hkv : kv.2 with
    | arr xs =>
      rw [hkv] at h
      rcases mem_foldl_uspAppend xs qs kv.1 p h with h' | h'
      · exact Or.inl ⟨h', hr'⟩
      · exact Or.inr h'
    | boolv b =>
      rw [hkv] at h
      rcases mem_uspSet _ _ _ _ h with h' | h'
      · exact Or.inl ⟨by rw [h'], hr'⟩
      · exact Or.inr h'
    | str s =>
      rw [hkv] at h
      rcases mem_uspSet _ _ _ _ h with h' | h'
      · exact Or.inl ⟨by rw [h'], hr'⟩
      · exact Or.inr h'
    | num n =>
      rw [hkv] at h
      rcases mem_uspSet _ _ _ _ h with h' | h'
      · exact Or.inl ⟨by rw [h'], hr'⟩
      · exact Or.inr h'
    | nullv => rw [hkv] at h; exact Or.inr h
    | undefv => rw [hkv] at h; exact Or.inr h

/-- The query-string fold of `buildUrlFromArgv` only ever inserts pairs
whose name is outside the reserved set. -/
theorem query_fold_names (reserved : List String)
    (entries : List (String × FlagVal)) (qs0 : SearchParams)
    (h0 : ∀ p ∈ qs0, reserved.contains p.1 = false) :
    ∀ p ∈ entries.foldl (queryStep reserved) qs0,
      reserved.contains p.1 = false := by
  induction entries generalizing qs0 with
  | nil => exact h0
  | cons kv entries ih =>
    rw [List.foldl_cons]
    apply ih
    intro p hp
    rcases mem_queryStep reserved qs0 kv p hp with ⟨h1, h2⟩ | hp'
    · rw [h1]
      exact h2
    · exact h0 p hp'

/-- **C2.** No key of `options.reservedKeys` and no key of the default
reserved set (`_`, `--`, `base`, `env`) ever appears as a query
parameter name in the URL built by `buildUrlFromArgv`. -/
theorem reserved_keys_never_in_query (argv : Argv) (options : AdapterOptions)
    (k v : String) (hmem : (k, v) ∈ (buildUrlFromArgv argv options).query) :
    ¬ (k ∈ options.reservedKeys ∨ k ∈ DEFAULT_RESERVED) := by
  intro hk
  have hres : (options.reservedKeys ++ DEFAULT_RESERVED).contains k = true :=
    List.elem_eq_true_of_mem (List.mem_append.mpr hk)
  have h := query_fold_names (options.reservedKeys ++ DEFAULT_RESERVED)
    argv.entries [] (by intro p hp; cases hp) (k, v) hmem
  rw [h] at hres
  cases hres

/-- Witness for C2: with `reservedKeys = ["secret"]`, the built query of
an argv carrying the flags `q`, `base`, `env`, `secret` contains the `q`
pair, which is proved non-reserved by the theorem, and indeed none of the
reserved names. -/
theorem reserved_keys_never_in_query_witness :
    ("q", "1") ∈ (buildUrlFromArgv
        { flags := [("q", .str "1"), ("secret", .str "s")],
          underscore := [.str "x"], ddash := ["k=v"] }
        { reservedKeys := ["secret"] }).query ∧
    ¬ ("q" ∈ ["secret"] ∨ "q" ∈ DEFAULT_RESERVED) ∧
    (buildUrlFromArgv
        { flags := [("q", .str "1"), ("secret", .str "s")],
          underscore := [.str "x"], ddash := ["k=v"] }
        { reservedKeys := ["secret"] }).query = [("q", "1")] := by
  refine ⟨by decide, ?_, by decide⟩
  exact reserved_keys_never_in_query
    { flags := [("q", .str "1"), ("secret", .str "s")],
      underscore := [.str "x"], ddash := ["k=v"] }
    { reservedKeys := ["secret"] } "q" "1" (by decide)

/-! ## Claim C1

The pathname claim.  As stated it fails: the WHATWG pathname setter
normalizes dot segments, so a positional token `.` (or `..`) — or a
base whose characters the setter percent-encodes or treats as
separators — changes the pathname.  The counterexample below exhibits
the failure at the token `.`; the amended theorem proves the claimed
equation for every base and token sequence that stays clear of the
setter's rewriting: no dot segments, and base characters the path
parser transports verbatim. -/

theorem char_toNat_lt (c : Char) : c.toNat < 1114112 := by
  show c.val.toNat < 1114112
  rcases c.valid with h | h
  · omega
  · exact h.2

theorem utf8Bytes_lt_256 (n : Nat) (hn : n < 1114112) : ∀ b ∈ utf8Bytes n, b < 256 := by
  intro b hb
  unfold utf8Bytes at hb
  split at hb
  · simp only [List.mem_singleton] at hb
    omega
  · split at hb
    · simp only [List.mem_cons, List.mem_singleton, List.not_mem_nil, or_false] at hb
      omega
    · split at hb
      · simp only [List.mem_cons, List.mem_singleton, List.not_mem_nil, or_false] at hb
        omega
      · simp only [List.mem_cons, List.mem_singleton, List.not_mem_nil, or_false] at hb
        omega

theorem pathPlainChar_hexDigitChar : ∀ d, d < 16 → pathPlainChar (hexDigitChar d) = true := by
  decide

theorem pathPlainChar_pctEncodeByte (b : Nat) (hb : b < 256) :
    ∀ c ∈ pctEncodeByte b, pathPlainChar c = true := by
  intro c hc
  simp only [pctEncodeByte, List.mem_cons, List.mem_singleton, List.not_mem_nil,
    or_false] at hc
  rcases hc with rfl | rfl | rfl
  · decide
  · exact pathPlainChar_hexDigitChar (b / 16) (by omega)
  · exact pathPlainChar_hexDigitChar (b % 16) (Nat.mod_lt _ (by omega))

theorem unreserved_pathPlain (c : Char) (h : isUnreservedCode c.toNat = true) :
    pathPlainChar c = true := by
  have hn : (65 ≤ c.toNat ∧ c.toNat ≤ 90) ∨ (97 ≤ c.toNat ∧ c.toNat ≤ 122) ∨
      (48 ≤ c.toNat ∧ c.toNat ≤ 57) ∨ c.toNat = 45 ∨ c.toNat = 95 ∨ c.toNat = 46 ∨
      c.toNat = 33 ∨ c.toNat = 126 ∨ c.toNat = 42 ∨ c.toNat = 39 ∨ c.toNat = 40 ∨
      c.toNat = 41 := by
    simpa [isUnreservedCode, Bool.or_eq_true, Bool.and_eq_true,
      decide_eq_true_eq, Nat.beq_eq_true_eq, and_assoc, or_assoc] using h
  have hne47 : c.toNat ≠ 47 := by omega
  have hne92 : c.toNat ≠ 92 := by omega
  have henc : inPathEncodeSet c = false := by
    simp only [inPathEncodeSet, Bool.or_eq_false_iff, decide_eq_false_iff_not,
      beq_eq_false_iff_ne, ne_eq, not_lt]
    omega
  have h47 : (c == '/') = false := by
    apply beq_eq_false_iff_ne.mpr
    intro hc
    exact hne47 (by rw [hc]; rfl)
  have h92 : (c == '\\') = false := by
    apply beq_eq_false_iff_ne.mpr
    intro hc
    exact hne92 (by rw [hc]; rfl)
  simp [pathPlainChar, henc, h47, h92]

theorem encodeURIChar_plain (c : Char) :
    ∀ c' ∈ encodeURIChar c, pathPlainChar c' = true := by
  intro c' hc'
  unfold encodeURIChar at hc'
  split at hc'
  · next h =>
    rw [List.mem_singleton.mp hc']
    exact unreserved_pathPlain c h
  · rcases List.mem_flatten.mp hc' with ⟨l, hl, hcl⟩
    rcases List.mem_map.mp hl with ⟨b, hb, rfl⟩
    exact pathPlainChar_pctEncodeByte b (utf8Bytes_lt_256 _ (char_toNat_lt c) b hb) c' hcl

theorem encodeURIComponentL_plain (l : List Char) :
    ∀ c' ∈ encodeURIComponentL l, pathPlainChar c' = true := by
  intro c' hc'
  rcases List.mem_flatten.mp hc' with ⟨seg, hseg, hcseg⟩
  rcases List.mem_map.mp hseg with ⟨c, _, rfl⟩
  exact encodeURIChar_plain c c' hcseg

theorem pathPlain_split (c : Char) (h : pathPlainChar c = true) :
    inPathEncodeSet c = false ∧ (c == '/') = false ∧ (c == '\\') = false := by
  simpa [pathPlainChar, Bool.and_eq_true, Bool.not_eq_true', and_assoc] using h

theorem basePlain_split (c : Char) (h : basePlainChar c = true) :
    inPathEncodeSet c = false ∧ (c == '\\') = false := by
  simpa [basePlainChar, Bool.and_eq_true, Bool.not_eq_true'] using h

theorem pathPlain_basePlain (c : Char) (h : pathPlainChar c = true) :
    basePlainChar c = true := by
  obtain ⟨h1, _, h3⟩ := pathPlain_split c h
  simp [basePlainChar, h1, h3]

theorem pathPlain_notSep (c : Char) (h : pathPlainChar c = true) :
    isPathSep c = false := by
  obtain ⟨_, h2, h3⟩ := pathPlain_split c h
  simp [isPathSep, h2, h3]

theorem dropWhile_eq_self_of_all_false {p : Char → Bool} (l : List Char)
    (h : ∀ c ∈ l, p c = false) : l.dropWhile p = l := by
  cases l with
  | nil => rfl
  | cons c cs =>
    rw [List.dropWhile_cons, h c (List.mem_cons_self _ _)]
    simp

theorem trimSlashesL_eq_self (l : List Char)
    (h : ∀ c ∈ l, (c == '/') = false) : trimSlashesL l = l := by
  unfold trimSlashesL
  rw [dropWhile_eq_self_of_all_false l h,
    dropWhile_eq_self_of_all_false l.reverse (fun c hc => h c (List.mem_reverse.mp hc)),
    List.reverse_reverse]

theorem splitPathSeps_cons_sep (c : Char) (cs : List Char) (h : isPathSep c = true) :
    splitPathSeps (c :: cs) = [] :: splitPathSeps cs := by
  conv_lhs => unfold splitPathSeps
  rw [h]
  simp

theorem splitPathSeps_ne_nil (l : List Char) : splitPathSeps l ≠ [] := by
  cases l with
  | nil => simp [splitPathSeps]
  | cons c cs =>
    unfold splitPathSeps
    split
    · simp
    · split <;> simp

theorem splitPathSeps_cons_nosep (c : Char) (cs : List Char) (s : List Char)
    (ss : List (List Char)) (h : isPathSep c = false)
    (hs : splitPathSeps cs = s :: ss) :
    splitPathSeps (c :: cs) = (c :: s) :: ss := by
  conv_lhs => unfold splitPathSeps
  rw [h, hs]
  simp

theorem splitPathSeps_append_sep (x y : List Char) :
    splitPathSeps (x ++ '/' :: y) = splitPathSeps x ++ splitPathSeps y := by
  induction x with
  | nil =>
    rw [List.nil_append, splitPathSeps_cons_sep '/' y rfl]
    rfl
  | cons c cs ih =>
    rw [List.cons_append]
    by_cases hc : isPathSep c = true
    · rw [splitPathSeps_cons_sep c _ hc, ih, splitPathSeps_cons_sep c cs hc,
        List.cons_append]
    · have hc' : isPathSep c = false := by
        cases hv : isPathSep c
        · rfl
        · exact absurd hv hc
      cases hs : splitPathSeps cs with
      | nil => exact absurd hs (splitPathSeps_ne_nil cs)
      | cons s ss =>
        have hx : splitPathSeps (cs ++ '/' :: y) = s :: (ss ++ splitPathSeps y) := by
          rw [ih, hs]
          rfl
        rw [splitPathSeps_cons_nosep c _ _ _ hc' hx,
          splitPathSeps_cons_nosep c cs s ss hc' hs, List.cons_append]

theorem splitPathSeps_no_sep (l : List Char)
    (h : ∀ c ∈ l, isPathSep c = false) : splitPathSeps l = [l] := by
  induction l with
  | nil => rfl
  | cons c cs ih =>
    exact splitPathSeps_cons_nosep c cs cs [] (h c (List.mem_cons_self _ _))
      (ih (fun c' hc' => h c' (List.mem_cons_of_mem _ hc')))

theorem mem_of_mem_splitPathSeps (l : List Char) (comp : List Char)
    (hcomp : comp ∈ splitPathSeps l) : ∀ c ∈ comp, c ∈ l := by
  induction l generalizing comp with
  | nil =>
    intro c hc
    simp only [splitPathSeps, List.mem_singleton] at hcomp
    rw [hcomp] at hc
    cases hc
  | cons d ds ih =>
    intro c hc
    by_cases hd : isPathSep d = true
    · rw [splitPathSeps_cons_sep d ds hd] at hcomp
      rcases List.mem_cons.mp hcomp with hcomp | hcomp
      · rw [hcomp] at hc
        cases hc
      · exact List.mem_cons_of_mem _ (ih comp hcomp c hc)
    · have hd' : isPathSep d = false := by
        cases hv : isPathSep d
        · rfl
        · exact absurd hv hd
      cases hs : splitPathSeps ds with
      | nil => exact absurd hs (splitPathSeps_ne_nil ds)
      | cons s ss =>
        rw [splitPathSeps_cons_nosep d ds s ss hd' hs] at hcomp
        rcases List.mem_cons.mp hcomp with hcomp | hcomp
        · rw [hcomp] at hc
          rcases List.mem_cons.mp hc with hc | hc
          · exact hc ▸ List.mem_cons_self _ _
          · exact List.mem_cons_of_mem _ (ih s (hs ▸ List.mem_cons_self _ _) c hc)
        · exact List.mem_cons_of_mem _ (ih comp (hs ▸ List.mem_cons_of_mem _ hcomp) c hc)

theorem mem_joinWithSlash (ps : List (List Char)) (c : Char)
    (hc : c ∈ joinWithSlash ps) : c = '/' ∨ ∃ p ∈ ps, c ∈ p := by
  induction ps with
  | nil => cases hc
  | cons p ps ih =>
    cases ps with
    | nil =>
      exact Or.inr ⟨p, List.mem_cons_self _ _, hc⟩
    | cons q qs =>
      rw [show joinWithSlash (p :: q :: qs) = p ++ '/' :: joinWithSlash (q :: qs) from rfl]
        at hc
      rcases List.mem_append.mp hc with hc | hc
      · exact Or.inr ⟨p, List.mem_cons_self _ _, hc⟩
      · rcases List.mem_cons.mp hc with hc | hc
        · exact Or.inl hc
        · rcases ih hc with hc | ⟨r, hr, hcr⟩
          · exact Or.inl hc
          · exact Or.inr ⟨r, List.mem_cons_of_mem _ hr, hcr⟩

theorem splitPathSeps_joinWithSlash (ps : List (List Char)) (hne : ps ≠ []) :
    splitPathSeps (joinWithSlash ps) = (ps.map splitPathSeps).flatten := by
  induction ps with
  | nil => exact absurd rfl hne
  | cons p ps ih =>
    cases ps with
    | nil => simp [joinWithSlash]
    | cons q qs =>
      rw [show joinWithSlash (p :: q :: qs) = p ++ '/' :: joinWithSlash (q :: qs) from rfl,
        splitPathSeps_append_sep, ih (by simp)]
      simp

theorem procPathSegs_no_dots (segs : List (List Char)) (acc : List (List Char))
    (h : ∀ s ∈ segs, notDotSeg s = true) :
    procPathSegs acc segs = acc ++ segs.map encodePathSeg := by
  induction segs generalizing acc with
  | nil => simp [procPathSegs]
  | cons b rest ih =>
    have hb := h b (List.mem_cons_self _ _)
    have hb1 : isDoubleDotSeg b = false := by
      simp only [notDotSeg, Bool.and_eq_true, Bool.not_eq_true'] at hb
      exact hb.2
    have hb2 : isSingleDotSeg b = false := by
      simp only [notDotSeg, Bool.and_eq_true, Bool.not_eq_true'] at hb
      exact hb.1
    unfold procPathSegs
    rw [hb1, hb2]
    simp only [Bool.false_eq_true, if_false]
    rw [ih _ (fun s hs => h s (List.mem_cons_of_mem _ hs))]
    simp

theorem encodePathSeg_id (s : List Char)
    (h : ∀ c ∈ s, inPathEncodeSet c = false) : encodePathSeg s = s := by
  induction s with
  | nil => rfl
  | cons c cs ih =>
    unfold encodePathSeg at *
    simp only [List.map_cons, List.flatten_cons]
    rw [ih (fun c' hc' => h c' (List.mem_cons_of_mem _ hc'))]
    unfold encodePathChar
    rw [h c (List.mem_cons_self _ _)]
    simp

theorem getter_inverse (l : List Char)
    (h : ∀ c ∈ l, (c == '\\') = false) :
    ((splitPathSeps l).map (fun s => '/' :: s)).flatten = '/' :: l := by
  induction l with
  | nil => rfl
  | cons c cs ih =>
    have hcs := ih (fun c' hc' => h c' (List.mem_cons_of_mem _ hc'))
    unfold splitPathSeps
    by_cases hc : isPathSep c = true
    · have hcslash : c = '/' := by
        have h92 := h c (List.mem_cons_self _ _)
        simp only [isPathSep, Bool.or_eq_true, beq_iff_eq] at hc
        rcases hc with hc | hc
        · exact hc
        · rw [hc] at h92
          simp at h92
      rw [hc]
      simp only [if_true, List.map_cons, List.flatten_cons, hcs, hcslash]
      rfl
    · have hc' : isPathSep c = false := by
        cases hv : isPathSep c
        · rfl
        · exact absurd hv hc
      rw [hc']
      simp only [Bool.false_eq_true, if_false]
      cases hs : splitPathSeps cs with
      | nil => exact absurd hs (splitPathSeps_ne_nil cs)
      | cons s ss =>
        rw [hs] at hcs
        simp only [List.map_cons, List.flatten_cons, List.cons_append,
          List.cons.injEq, true_and] at hcs
        simp only [List.map_cons, List.flatten_cons, List.cons_append, hcs]

/-- Mapping a function that fixes every element of a list is the
identity. -/
theorem map_id_of_eq {α : Type} (l : List α) (f : α → α)
    (h : ∀ x ∈ l, f x = x) : l.map f = l := by
  induction l with
  | nil => rfl
  | cons x xs ih =>
    rw [List.map_cons, h x (List.mem_cons_self _ _),
      ih (fun y hy => h y (List.mem_cons_of_mem _ hy))]

/-- The heart of the amended pathname claim: assigning
`'/' ++ join('/', F)` to the pathname of a special-scheme URL and
reading it back is the identity, provided every part consists of
parser-plain characters and no slash-component of any part is a dot
segment. -/
theorem setPathname_roundtrip (F : List (List Char))
    (hchars : ∀ p ∈ F, ∀ c ∈ p, basePlainChar c = true)
    (hdots : ∀ p ∈ F, ∀ comp ∈ splitPathSeps p, notDotSeg comp = true) :
    ((setPathname ('/' :: joinWithSlash F)).map (fun s => '/' :: s)).flatten =
      '/' :: joinWithSlash F := by
  by_cases hF : F = []
  · subst hF
    rfl
  · have hsplit := splitPathSeps_joinWithSlash F hF
    have hcomps : ∀ comp ∈ splitPathSeps (joinWithSlash F), notDotSeg comp = true := by
      intro comp hcomp
      rw [hsplit] at hcomp
      rcases List.mem_flatten.mp hcomp with ⟨l, hl, hcl⟩
      rcases List.mem_map.mp hl with ⟨p, hp, rfl⟩
      exact hdots p hp comp hcl
    have hcompchars : ∀ comp ∈ splitPathSeps (joinWithSlash F),
        ∀ c ∈ comp, inPathEncodeSet c = false := by
      intro comp hcomp c hc
      rw [hsplit] at hcomp
      rcases List.mem_flatten.mp hcomp with ⟨l, hl, hcl⟩
      rcases List.mem_map.mp hl with ⟨p, hp, rfl⟩
      exact (basePlain_split c (hchars p hp c (mem_of_mem_splitPathSeps p comp hcl c hc))).1
    have hnoback : ∀ c ∈ joinWithSlash F, (c == '\\') = false := by
      intro c hc
      rcases mem_joinWithSlash F c hc with rfl | ⟨p, hp, hcp⟩
      · decide
      · exact (basePlain_split c (hchars p hp c hcp)).2
    have hstrip : stripOneLeadingSep ('/' :: joinWithSlash F) = joinWithSlash F := rfl
    unfold setPathname
    rw [hstrip, procPathSegs_no_dots _ _ hcomps, List.nil_append,
      map_id_of_eq _ encodePathSeg
        (fun comp hcomp => encodePathSeg_id comp (hcompchars comp hcomp))]
    exact getter_inverse _ hnoback

/-- **C1 (counterexample).** The claim as stated fails: for the single
positional token `.` with an absent base, the spec's formula predicts the
pathname `/.`, but the code returns a URL whose pathname is `/` — the
WHATWG pathname setter treats `.` as a single-dot segment and removes
it. -/
theorem buildUrl_pathname_claim_cex :
    (buildUrlFromArgv { underscore := [.str "."] } {}).pathname = "/" ∧
    specClaimedPathname "" [.str "."] = "/." ∧
    ¬ ((buildUrlFromArgv { underscore := [.str "."] } {}).pathname =
        specClaimedPathname "" [.str "."]) := by
  refine ⟨by decide, by decide, by decide⟩

/-- **C1 (amended).** For every base `B` and positional-token sequence
such that (i) every character of the slash-trimmed `B` is transported
verbatim by the URL path parser (outside the path percent-encode set and
not a backslash), (ii) no slash-component of the slash-trimmed `B` is a
dot segment, and (iii) no token's percent-encoded form is a dot segment,
`buildUrlFromArgv` returns a URL whose pathname is exactly `/` followed
by the slash-join of the slash-trimmed `B` and the percent-encoded form
of each kept token, with no empty path components; with empty base and
no tokens the pathname is `/`. -/
theorem buildUrl_pathname_amended (argv : Argv) (options : AdapterOptions)
    (hBc : ∀ c ∈ trimSlashesL (options.base.getD "").data, basePlainChar c = true)
    (hBd : ∀ comp ∈ splitPathSeps (trimSlashesL (options.base.getD "").data),
        notDotSeg comp = true)
    (hT : ∀ t ∈ argv.underscore.filter JsTok.isRealValue,
        notDotSeg (encodeURIComponentL t.toStr.data) = true) :
    (buildUrlFromArgv argv options).pathname =
      specClaimedPathname (options.base.getD "")
        (argv.underscore.filter JsTok.isRealValue) := by
  have hencplain : ∀ t ∈ argv.underscore.filter JsTok.isRealValue,
      ∀ c ∈ encodeURIComponentL t.toStr.data, pathPlainChar c = true := by
    intro t _ c hc
    exact encodeURIComponentL_plain _ c hc
  have htrimmap :
      ((argv.underscore.filter JsTok.isRealValue).map
        (fun s => encodeURIComponentL s.toStr.data)).map trimSlashesL =
      (argv.underscore.filter JsTok.isRealValue).map
        (fun s => encodeURIComponentL s.toStr.data) := by
    apply map_id_of_eq
    intro e he
    rcases List.mem_map.mp he with ⟨t, ht, rfl⟩
    apply trimSlashesL_eq_self
    intro c hc
    exact (pathPlain_split c (hencplain t ht c hc)).2.1
  have hjoin : joinSlashL ((options.base.getD "").data ::
      (argv.underscore.filter JsTok.isRealValue).map
        (fun s => encodeURIComponentL s.toStr.data)) =
      joinWithSlash ((trimSlashesL (options.base.getD "").data ::
        (argv.underscore.filter JsTok.isRealValue).map
          (fun s => encodeURIComponentL s.toStr.data)).filter
        (fun p => ¬ p.isEmpty)) := by
    unfold joinSlashL
    rw [List.map_cons, htrimmap]
  have hchars : ∀ p ∈ (trimSlashesL (options.base.getD "").data ::
      (argv.underscore.filter JsTok.isRealValue).map
        (fun s => encodeURIComponentL s.toStr.data)).filter
      (fun p => ¬ p.isEmpty), ∀ c ∈ p, basePlainChar c = true := by
    intro p hp c hc
    rcases List.mem_cons.mp (List.mem_of_mem_filter hp) with rfl | hp'
    · exact hBc c hc
    · rcases List.mem_map.mp hp' with ⟨t, ht, rfl⟩
      exact pathPlain_basePlain c (hencplain t ht c hc)
  have hdots : ∀ p ∈ (trimSlashesL (options.base.getD "").data ::
      (argv.underscore.filter JsTok.isRealValue).map
        (fun s => encodeURIComponentL s.toStr.data)).filter
      (fun p => ¬ p.isEmpty), ∀ comp ∈ splitPathSeps p, notDotSeg comp = true := by
    intro p hp comp hcomp
    rcases List.mem_cons.mp (List.mem_of_mem_filter hp) with rfl | hp'
    · exact hBd comp hcomp
    · rcases List.mem_map.mp hp' with ⟨t, ht, rfl⟩
      rw [splitPathSeps_no_sep _
        (fun c hc => pathPlain_notSep c (hencplain t ht c hc))] at hcomp
      rw [List.mem_singleton.mp hcomp]
      exact hT t ht
  show String.mk (((setPathname ('/' :: joinSlashL ((options.base.getD "").data ::
      (argv.underscore.filter JsTok.isRealValue).map
        (fun s => encodeURIComponentL s.toStr.data)))).map
      (fun s => '/' :: s)).flatten) = _
  rw [hjoin]
  unfold specClaimedPathname
  exact congrArg String.mk (setPathname_roundtrip _ hchars hdots)

/-- Witness for the amended C1: base `/v1/` with tokens `user`, `a b`
(space percent-encoded), the number `42`, and an empty-string token
(dropped as an empty component) yield the pathname
`/v1/user/a%20b/42`; with no base and no tokens the pathname is `/`. -/
theorem buildUrl_pathname_amended_witness :
    (buildUrlFromArgv
        { underscore := [.str "user", .str "a b", .num 42, .str ""] }
        { base := some "/v1/" }).pathname =
      specClaimedPathname "/v1/" [.str "user", .str "a b", .num 42, .str ""] ∧
    specClaimedPathname "/v1/" [.str "user", .str "a b", .num 42, .str ""] =
      "/v1/user/a%20b/42" ∧
    (buildUrlFromArgv { underscore := [] } {}).pathname =
      specClaimedPathname "" [] ∧
    specClaimedPathname "" [] = "/" := by
  refine ⟨?_, by decide, ?_, by decide⟩
  · exact buildUrl_pathname_amended
      { underscore := [.str "user", .str "a b", .num 42, .str ""] }
      { base := some "/v1/" } (by decide) (by decide) (by decide)
  · exact buildUrl_pathname_amended { underscore := [] } {}
      (by decide) (by decide) (by decide)
